import Mathlib

/-!
Verification development for the llm-config-manager repository.

The definitions below are a shallow embedding of the Rust sources:

* `crates/llm-config-storage/src/models.rs` — `Environment`, `ConfigValue`,
  `ConfigMetadata`, `ConfigEntry`, `VersionEntry`;
* `crates/llm-config-storage/src/file.rs` — `FileStorage` (the in-memory
  index plus the append-only versions directory, with the on-disk byte
  layout abstracted away);
* `crates/llm-config-crypto/src/lib.rs` — `SecretKey`, `EncryptedData`,
  `encrypt`, `decrypt`, with the AES-256-GCM seal/open primitive of the
  external `ring` crate abstracted into an `AeadPrimitive` parameter;
* `crates/llm-config-core/src/manager.rs` and `version.rs` —
  `ConfigManager` and `VersionControl`;
* `crates/llm-config-security/src/input.rs` — `InputValidator`;
* `crates/llm-config-security/src/rate_limit.rs` — `RateLimiter`;
* `crates/llm-config-cache/src/l1.rs`, `l2.rs`, `manager.rs` — the
  two-tier cache.

Machine integers are modelled as `Nat`/`Int`; bytes as `Fin 256`; wall-clock
instants, UUIDs and timestamps as `Nat` values threaded explicitly through
the operations (`Uuid::new_v4` becomes a fresh-counter allocation,
`Utc::now` / `Instant::now` become an explicit `now` argument).
-/

/-- Byte value, the model of Rust `u8`. -/
abbrev Byte := Fin 256

/-- Association-list lookup, the model of `HashMap` lookup. -/
def assocFind (k : String) : List (String × α) → Option α
  | [] => none
  | (k₁, v) :: rest => if k₁ = k then some v else assocFind k rest

/-- Association-list insert-or-replace, the model of `HashMap::insert`. -/
def assocInsert (k : String) (v : α) : List (String × α) → List (String × α)
  | [] => [(k, v)]
  | (k₁, v₁) :: rest =>
      if k₁ = k then (k, v) :: rest else (k₁, v₁) :: assocInsert k v rest

/-- Association-list removal, the model of `HashMap::remove`. -/
def assocErase (k : String) : List (String × α) → List (String × α)
  | [] => []
  | (k₁, v₁) :: rest =>
      if k₁ = k then rest else (k₁, v₁) :: assocErase k rest

/-! ## Environment (`models.rs`) -/

/-- Deployment environment tag (`Environment` in `models.rs`). -/
inductive Environment where
  | base
  | development
  | staging
  | production
  | edge
deriving DecidableEq, Repr

/-- Lowercase display name of an environment (`Display for Environment`). -/
def envToString : Environment → String
  | .base => "base"
  | .development => "development"
  | .staging => "staging"
  | .production => "production"
  | .edge => "edge"

/-! ## Crypto (`llm-config-crypto/src/lib.rs`) -/

/-- Encryption algorithm identifier (`Algorithm`); AES-256-GCM is the only
variant. -/
inductive Algorithm where
  | aes256Gcm
deriving DecidableEq, Repr

/-- Error type of the crypto crate (`CryptoError`). -/
inductive CryptoError where
  | encryptionFailed (msg : String)
  | decryptionFailed (msg : String)
  | keyGenerationFailed (msg : String)
  | invalidKeyLength (expected actual : Nat)
  | invalidNonceLength (expected actual : Nat)
  | ringError (msg : String)
deriving DecidableEq, Repr

/-- Size of AES-256 keys in bytes (`KEY_SIZE`). -/
def KEY_SIZE : Nat := 32

/-- Size of AES-GCM nonces in bytes (`NONCE_SIZE`). -/
def NONCE_SIZE : Nat := 12

/-- A symmetric key (`SecretKey`); the zeroize-on-drop behaviour is a
resource-management property with no observable effect on the functional
semantics modelled here. -/
structure SecretKey where
  algorithm : Algorithm
  bytes : List Byte
deriving DecidableEq, Repr

/-- Constructor `SecretKey::from_bytes`, with its key-length check. -/
def SecretKey.fromBytes (algorithm : Algorithm) (bytes : List Byte) :
    Except CryptoError SecretKey :=
  let expectedLen := match algorithm with
    | .aes256Gcm => KEY_SIZE
  if bytes.length ≠ expectedLen then
    .error (.invalidKeyLength expectedLen bytes.length)
  else
    .ok ⟨algorithm, bytes⟩

/-- Encrypted payload record (`EncryptedData`). -/
structure EncryptedData where
  algorithm : Algorithm
  nonce : List Byte
  ciphertext : List Byte
  keyVersion : Nat
  aadContext : Option String
deriving DecidableEq, Repr

/-- UTF-8 encoding of a character, as a list of byte values. -/
def charUtf8 (c : Char) : List Byte :=
  let n := c.toNat
  if n < 0x80 then
    [⟨n % 256, Nat.mod_lt _ (by omega)⟩]
  else if n < 0x800 then
    [⟨(0xC0 + n / 64) % 256, Nat.mod_lt _ (by omega)⟩,
     ⟨(0x80 + n % 64) % 256, Nat.mod_lt _ (by omega)⟩]
  else if n < 0x10000 then
    [⟨(0xE0 + n / 4096) % 256, Nat.mod_lt _ (by omega)⟩,
     ⟨(0x80 + (n / 64) % 64) % 256, Nat.mod_lt _ (by omega)⟩,
     ⟨(0x80 + n % 64) % 256, Nat.mod_lt _ (by omega)⟩]
  else
    [⟨(0xF0 + n / 262144) % 256, Nat.mod_lt _ (by omega)⟩,
     ⟨(0x80 + (n / 4096) % 64) % 256, Nat.mod_lt _ (by omega)⟩,
     ⟨(0x80 + (n / 64) % 64) % 256, Nat.mod_lt _ (by omega)⟩,
     ⟨(0x80 + n % 64) % 256, Nat.mod_lt _ (by omega)⟩]

/-- UTF-8 encoding of a string (`str::as_bytes`). -/
def strUtf8 (s : String) : List Byte :=
  s.data.flatMap charUtf8

/-- Fuel-driven UTF-8 decoder; `fuel` bounds the recursion depth by the
length of the byte list. -/
def utf8DecodeAux : Nat → List Byte → Option (List Char)
  | 0, [] => some []
  | 0, _ :: _ => none
  | _ + 1, [] => some []
  | fuel + 1, b :: rest =>
      let bv := b.val
      if bv < 0x80 then
        (utf8DecodeAux fuel rest).map (Char.ofNat bv :: ·)
      else if 0xC2 ≤ bv ∧ bv < 0xE0 then
        match rest with
        | b₂ :: rest₂ =>
            if 0x80 ≤ b₂.val ∧ b₂.val < 0xC0 then
              (utf8DecodeAux fuel rest₂).map
                (Char.ofNat ((bv - 0xC0) * 64 + (b₂.val - 0x80)) :: ·)
            else none
        | [] => none
      else if 0xE0 ≤ bv ∧ bv < 0xF0 then
        match rest with
        | b₂ :: b₃ :: rest₃ =>
            let cp := (bv - 0xE0) * 4096 + (b₂.val - 0x80) * 64 + (b₃.val - 0x80)
            if (0x80 ≤ b₂.val ∧ b₂.val < 0xC0) ∧ (0x80 ≤ b₃.val ∧ b₃.val < 0xC0) ∧
               0x800 ≤ cp ∧ ¬ (0xD800 ≤ cp ∧ cp < 0xE000) then
              (utf8DecodeAux fuel rest₃).map (Char.ofNat cp :: ·)
            else none
        | _ => none
      else if 0xF0 ≤ bv ∧ bv < 0xF5 then
        match rest with
        | b₂ :: b₃ :: b₄ :: rest₄ =>
            let cp := (bv - 0xF0) * 262144 + (b₂.val - 0x80) * 4096 +
              (b₃.val - 0x80) * 64 + (b₄.val - 0x80)
            if (0x80 ≤ b₂.val ∧ b₂.val < 0xC0) ∧ (0x80 ≤ b₃.val ∧ b₃.val < 0xC0) ∧
               (0x80 ≤ b₄.val ∧ b₄.val < 0xC0) ∧ 0x10000 ≤ cp ∧ cp < 0x110000 then
              (utf8DecodeAux fuel rest₄).map (Char.ofNat cp :: ·)
            else none
        | _ => none
      else none

/-- UTF-8 validation and decoding (`String::from_utf8`). -/
def utf8Decode? (bs : List Byte) : Option String :=
  (utf8DecodeAux bs.length bs).map fun cs => ⟨cs⟩

/-- Abstraction of the AES-256-GCM primitive of the external `ring` crate:
an authenticated seal/open pair over (key, nonce, aad, data), together with
the two functional-correctness facts of an AEAD scheme used by the spec —
sealing then opening under the same key returns the plaintext, and opening
under a different (valid-length) key fails. -/
structure AeadPrimitive where
  aeadSeal : List Byte → List Byte → List Byte → List Byte → List Byte
  aeadOpen : List Byte → List Byte → List Byte → List Byte → Option (List Byte)
  seal_open : ∀ k n aad p, k.length = KEY_SIZE → n.length = NONCE_SIZE →
    aeadOpen k n aad (aeadSeal k n aad p) = some p
  key_binding : ∀ k k' n aad p, k.length = KEY_SIZE → k'.length = KEY_SIZE →
    n.length = NONCE_SIZE → k ≠ k' →
    aeadOpen k' n aad (aeadSeal k n aad p) = none

/-- The `encrypt` function of the crypto crate. The freshly generated random
nonce becomes an explicit `nonce` argument; `UnboundKey::new` fails on a key
of the wrong length, which surfaces as `RingError` through the `From`
conversion. -/
def encrypt (prim : AeadPrimitive) (key : SecretKey) (plaintext : List Byte)
    (aadContext : Option String) (nonce : List Byte) :
    Except CryptoError EncryptedData :=
  match key.algorithm with
  | .aes256Gcm =>
    if key.bytes.length ≠ KEY_SIZE then .error (.ringError "UnboundKey")
    else
      let aad := match aadContext with
        | some ctx => strUtf8 ctx
        | none => []
      .ok { algorithm := .aes256Gcm
            nonce := nonce
            ciphertext := prim.aeadSeal key.bytes nonce aad plaintext
            keyVersion := 1
            aadContext := aadContext }

/-- The `decrypt` function of the crypto crate, with its algorithm,
nonce-length and key-length checks in source order. -/
def decrypt (prim : AeadPrimitive) (key : SecretKey) (encrypted : EncryptedData) :
    Except CryptoError (List Byte) :=
  match encrypted.algorithm, key.algorithm with
  | .aes256Gcm, .aes256Gcm =>
    if encrypted.nonce.length ≠ NONCE_SIZE then
      .error (.invalidNonceLength NONCE_SIZE encrypted.nonce.length)
    else if key.bytes.length ≠ KEY_SIZE then .error (.ringError "UnboundKey")
    else
      let aad := match encrypted.aadContext with
        | some ctx => strUtf8 ctx
        | none => []
      match prim.aeadOpen key.bytes encrypted.nonce aad encrypted.ciphertext with
      | some plaintext => .ok plaintext
      | none => .error (.decryptionFailed "aead")

/-! ## Storage models (`models.rs`) -/

/-- Configuration value union (`ConfigValue`, `#[serde(untagged)]`). The
`f64` payload of `Float` is modelled by its 64-bit IEEE-754 bit pattern. -/
inductive ConfigValue where
  | string (s : String)
  | integer (n : Int)
  | float (bits : Nat)
  | boolean (b : Bool)
  | array (xs : List ConfigValue)
  | object (fields : List (String × ConfigValue))
  | secret (data : EncryptedData)
deriving Repr

/-- Discriminator `ConfigValue::is_secret`. -/
def ConfigValue.isSecret : ConfigValue → Bool
  | .secret _ => true
  | _ => false

/-- Entry metadata (`ConfigMetadata`); `DateTime<Utc>` values are modelled
as abstract `Nat` instants. -/
structure ConfigMetadata where
  createdAt : Nat
  createdBy : String
  updatedAt : Nat
  updatedBy : String
  tags : List String
  description : Option String
deriving Repr

/-- Default metadata (`ConfigMetadata::default`), taken at instant `now`. -/
def ConfigMetadata.defaultAt (now : Nat) : ConfigMetadata :=
  { createdAt := now
    createdBy := "system"
    updatedAt := now
    updatedBy := "system"
    tags := []
    description := none }

/-- A current configuration entry (`ConfigEntry`); the `Uuid` id is modelled
as a `Nat` drawn from a fresh counter. `namespace` is a Lean keyword, so the
field is called `nspace`. -/
structure ConfigEntry where
  id : Nat
  nspace : String
  key : String
  value : ConfigValue
  environment : Environment
  version : Nat
  metadata : ConfigMetadata
deriving Repr

/-- Constructor `ConfigEntry::new`, with `id` the freshly allocated UUID and
`now` the creation instant. -/
def ConfigEntry.new (id : Nat) (nspace key : String) (value : ConfigValue)
    (environment : Environment) (now : Nat) : ConfigEntry :=
  { id := id
    nspace := nspace
    key := key
    value := value
    environment := environment
    version := 1
    metadata := ConfigMetadata.defaultAt now }

/-- A version-history record (`VersionEntry`). -/
structure VersionEntry where
  version : Nat
  configId : Nat
  nspace : String
  key : String
  value : ConfigValue
  environment : Environment
  createdAt : Nat
  createdBy : String
  changeDescription : Option String
deriving Repr

/-! ## File storage (`file.rs`) -/

/-- State of a `FileStorage`: the in-memory index keyed by the
`"<ns>::<key>::<env>"` string, and the contents of the `versions/`
directory. Each `store_version` writes one new file under a fresh random
UUID, so the directory is modelled as an append-only list. -/
structure Storage where
  configs : List (String × ConfigEntry)
  versions : List VersionEntry
deriving Repr

/-- The empty storage (a fresh directory). -/
def Storage.empty : Storage := { configs := [], versions := [] }

/-- Index key construction (`FileStorage::make_key`). -/
def makeKey (nspace key : String) (env : Environment) : String :=
  nspace ++ "::" ++ key ++ "::" ++ envToString env

/-- `FileStorage::set`: atomic write then index insert under the entry's own
triple. -/
def storageSet (st : Storage) (config : ConfigEntry) : Storage :=
  { st with configs :=
      assocInsert (makeKey config.nspace config.key config.environment) config st.configs }

/-- `FileStorage::get`: index lookup. -/
def storageGet (st : Storage) (nspace key : String) (env : Environment) :
    Option ConfigEntry :=
  assocFind (makeKey nspace key env) st.configs

/-- `FileStorage::store_version`: write one new version file. -/
def storeVersion (st : Storage) (version : VersionEntry) : Storage :=
  { st with versions := st.versions ++ [version] }

/-- Predicate selecting the version records of one triple, as in the scan of
`FileStorage::get_versions`. -/
def versionMatches (nspace key : String) (env : Environment) (v : VersionEntry) :
    Bool :=
  v.nspace = nspace ∧ v.key = key ∧ v.environment = env

/-- Insertion step of a stable sort by version number descending. -/
def insertByVersionDesc (v : VersionEntry) : List VersionEntry → List VersionEntry
  | [] => [v]
  | w :: rest =>
      if w.version < v.version then v :: w :: rest
      else w :: insertByVersionDesc v rest

/-- Stable sort by version number descending, the model of
`versions.sort_by(|a, b| b.version.cmp(&a.version))`. -/
def sortByVersionDesc : List VersionEntry → List VersionEntry
  | [] => []
  | v :: rest => insertByVersionDesc v (sortByVersionDesc rest)

/-- `FileStorage::get_versions`: scan the versions directory, keep the
records of the requested triple, sort by version number descending. -/
def getVersions (st : Storage) (nspace key : String) (env : Environment) :
    List VersionEntry :=
  sortByVersionDesc (st.versions.filter (versionMatches nspace key env))

/-! ## Version control (`version.rs`) and manager (`manager.rs`) -/

/-- Error sum of the core crate (`ConfigError`), restricted to the variants
reachable from the operations modelled here. -/
inductive ConfigError where
  | validationError (msg : String)
  | cryptoError (e : CryptoError)
deriving DecidableEq, Repr

/-- State owned by a `ConfigManager`: the storage (shared with its
`VersionControl`), the optional encryption key, and the model's fresh-UUID
counter. -/
structure ManagerState where
  storage : Storage
  nextId : Nat
  encryptionKey : Option SecretKey
deriving Repr

/-- A freshly created manager over an empty directory
(`ConfigManager::new`). -/
def ManagerState.empty : ManagerState :=
  { storage := Storage.empty, nextId := 0, encryptionKey := none }

/-- `VersionControl::create_snapshot`: append one version record taken from
the entry, stamped at `now` and attributed to the entry's last updater. -/
def createSnapshot (st : Storage) (config : ConfigEntry)
    (changeDescription : Option String) (now : Nat) : Storage :=
  storeVersion st
    { version := config.version
      configId := config.id
      nspace := config.nspace
      key := config.key
      value := config.value
      environment := config.environment
      createdAt := now
      createdBy := config.metadata.updatedBy
      changeDescription := changeDescription }

/-- `ConfigManager::set`. Returns the written entry and the new state; the
`encrypt_entry` call in the source is a no-op. -/
def managerSet (st : ManagerState) (nspace key : String) (value : ConfigValue)
    (env : Environment) (user : String) (now : Nat) :
    ConfigEntry × ManagerState :=
  let existing := storageGet st.storage nspace key env
  let entry := match existing with
    | some existingEntry =>
        { existingEntry with
            value := value
            version := existingEntry.version + 1
            metadata := { existingEntry.metadata with
                            updatedAt := now, updatedBy := user } }
    | none =>
        let e := ConfigEntry.new st.nextId nspace key value env now
        { e with metadata := { e.metadata with createdBy := user, updatedBy := user } }
  let nextId := match existing with
    | some _ => st.nextId
    | none => st.nextId + 1
  let storage₁ := storageSet st.storage entry
  let storage₂ := createSnapshot storage₁ entry (some "Configuration updated") now
  (entry, { st with storage := storage₂, nextId := nextId })

/-- `VersionControl::rollback` as exposed through `ConfigManager::rollback`.
On a hit it builds a brand-new entry (`ConfigEntry::new`, hence a fresh id
and default metadata) from the snapshot, bumps the version past the head of
the history, persists it and snapshots the rollback. -/
def managerRollback (st : ManagerState) (nspace key : String) (env : Environment)
    (targetVersion : Nat) (now : Nat) :
    Option ConfigEntry × ManagerState :=
  let versions := getVersions st.storage nspace key env
  match versions.find? (fun v => v.version = targetVersion) with
  | some version =>
      let c₀ := ConfigEntry.new st.nextId version.nspace version.key
        version.value version.environment now
      let c₁ := { c₀ with
                    version := match versions.head? with
                      | some v => v.version + 1
                      | none => 1
                    metadata := { c₀.metadata with updatedAt := now } }
      let storage₁ := storageSet st.storage c₁
      let storage₂ := createSnapshot storage₁ c₁
        (some ("Rollback to version " ++ toString targetVersion)) now
      (some c₁, { st with storage := storage₂, nextId := st.nextId + 1 })
  | none => (none, st)

/-- `ConfigManager::decrypt_entry`: replace a `Secret` value by the UTF-8
decoding of its decryption; a non-secret value is left unchanged. -/
def decryptEntry (prim : AeadPrimitive) (key : SecretKey) (entry : ConfigEntry) :
    Except ConfigError ConfigEntry :=
  match entry.value with
  | .secret encrypted =>
      match decrypt prim key encrypted with
      | .ok plaintext =>
          match utf8Decode? plaintext with
          | some s => .ok { entry with value := .string s }
          | none => .error (.validationError "invalid utf-8 sequence")
      | .error e => .error (.cryptoError e)
  | _ => .ok entry

/-- `ConfigManager::get`: storage lookup, then transparent decryption when a
key is loaded. -/
def managerGet (prim : AeadPrimitive) (st : ManagerState) (nspace key : String)
    (env : Environment) : Except ConfigError (Option ConfigEntry) :=
  match storageGet st.storage nspace key env with
  | none => .ok none
  | some entry =>
      match st.encryptionKey with
      | none => .ok (some entry)
      | some k => (decryptEntry prim k entry).map some

/-- `ConfigManager::get_history`: delegate to `get_versions`. -/
def managerGetHistory (st : ManagerState) (nspace key : String)
    (env : Environment) : List VersionEntry :=
  getVersions st.storage nspace key env

/-- Override-chain table of `ConfigManager::get_with_overrides` (the `match
env` block in `manager.rs`). -/
def overrideEnvs : Environment → List Environment
  | .base => []
  | .development => [.development]
  | .staging => [.development, .staging]
  | .production => [.development, .staging, .production]
  | .edge => [.edge]

/-- Value-selection phase of `ConfigManager::get_with_overrides`: start from
the `Base` entry's value, then fold the override chain, each present entry
replacing the accumulator. -/
def gwoSelect (stor : Storage) (nspace key : String) (env : Environment) :
    Option ConfigValue :=
  (overrideEnvs env).foldl
    (fun acc overrideEnv =>
      match storageGet stor nspace key overrideEnv with
      | some overrideEntry => some overrideEntry.value
      | none => acc)
    ((storageGet stor nspace key .base).map (·.value))

/-- `ConfigManager::get_with_overrides`: the selection phase followed by the
transparent decryption of a selected `Secret` value when a key is loaded. -/
def managerGetWithOverrides (prim : AeadPrimitive) (st : ManagerState)
    (nspace key : String) (env : Environment) :
    Except ConfigError (Option ConfigValue) :=
  let value := gwoSelect st.storage nspace key env
  match value with
  | some (.secret encrypted) =>
      match st.encryptionKey with
      | some k =>
          match decrypt prim k encrypted with
          | .ok plaintext =>
              match utf8Decode? plaintext with
              | some s => .ok (some (.string s))
              | none => .error (.validationError "invalid utf-8 sequence")
          | .error e => .error (.cryptoError e)
      | none => .ok value
  | _ => .ok value

/-- Environment chain exactly as the claim words it: `Base` gets nothing,
`Development` gets `Development`, `Staging` gets `Development, Staging`,
`Production` gets `Development, Staging, Production`, `Edge` gets `Edge`. -/
def specOverrideChain : Environment → List Environment
  | .base => []
  | .development => [.development]
  | .staging => [.development, .staging]
  | .production => [.development, .staging, .production]
  | .edge => [.edge]

/-- Resolution exactly as the claim words it: among `Base` followed by the
chain, the value of the last environment for which an entry exists; `none`
when no entry exists anywhere in that order. -/
def specLastPresent (stor : Storage) (nspace key : String) (env : Environment) :
    Option ConfigValue :=
  ((Environment.base :: specOverrideChain env).reverse).findSome?
    (fun e => (storageGet stor nspace key e).map (·.value))

/-! ## JSON model (`serde_json`), for the on-disk formats -/

/-- JSON value tree, the model of `serde_json::Value`; numbers keep the
integer / floating distinction that serde uses when trying untagged
variants, a floating number being carried by its IEEE-754 bit pattern. -/
inductive Json where
  | null
  | bool (b : Bool)
  | int (n : Int)
  | double (bits : Nat)
  | str (s : String)
  | arr (xs : List Json)
  | obj (fields : List (String × Json))
deriving Repr

/-- Finiteness of an IEEE-754 double given by its bit pattern: the exponent
field is not all ones. `serde_json` serializes a non-finite `f64` as
`null`. -/
def isFiniteF64 (bits : Nat) : Bool :=
  (bits / 2 ^ 52) % 2 ^ 11 ≠ 2047

/-- Little-endian decimal digits of a natural number (empty for zero). -/
def natDigitsRev (n : Nat) : List Nat :=
  if h : n = 0 then [] else (n % 10) :: natDigitsRev (n / 10)
decreasing_by exact Nat.div_lt_self (Nat.pos_of_ne_zero h) (by omega)

/-- Decimal digit to its ASCII character. -/
def digitToChar (d : Nat) : Char := Char.ofNat (48 + d)

/-- Decimal rendering of a natural number. This is the injective model of
the external renderings of `u64`, `Uuid` and `DateTime<Utc>` values, all of
which round-trip exactly through their serde string/number forms. -/
def natToString (n : Nat) : String :=
  if n = 0 then "0" else ⟨((natDigitsRev n).map digitToChar).reverse⟩

/-- ASCII character to decimal digit. -/
def charToDigit? (c : Char) : Option Nat :=
  if 48 ≤ c.toNat ∧ c.toNat ≤ 57 then some (c.toNat - 48) else none

/-- Accumulating decimal parser. -/
def parseNatAux (acc : Nat) : List Char → Option Nat
  | [] => some acc
  | c :: rest =>
      match charToDigit? c with
      | some d => parseNatAux (acc * 10 + d) rest
      | none => none

/-- Decimal parsing of a nonempty digit string. -/
def parseNat? (s : String) : Option Nat :=
  match s.data with
  | [] => none
  | cs => parseNatAux 0 cs

/-- Hexadecimal digit to its lowercase ASCII character (`hex::encode`). -/
def hexDigitChar (d : Nat) : Char :=
  Char.ofNat (if d < 10 then 48 + d else 87 + d)

/-- Lowercase hex rendering of one byte. -/
def byteToHex (b : Byte) : List Char :=
  [hexDigitChar (b.val / 16), hexDigitChar (b.val % 16)]

/-- Lowercase hex rendering of a byte string (`hex::encode`). -/
def bytesToHex (bs : List Byte) : String := ⟨bs.flatMap byteToHex⟩

/-- Hexadecimal digit value of a character; `hex::decode` accepts both
cases. -/
def hexDigitVal? (c : Char) : Option Nat :=
  if 48 ≤ c.toNat ∧ c.toNat ≤ 57 then some (c.toNat - 48)
  else if 97 ≤ c.toNat ∧ c.toNat ≤ 102 then some (c.toNat - 87)
  else if 65 ≤ c.toNat ∧ c.toNat ≤ 70 then some (c.toNat - 55)
  else none

/-- Hex decoding of a character list (`hex::decode`); fails on odd length or
a non-hex character. -/
def hexToBytes? : List Char → Option (List Byte)
  | [] => some []
  | [_] => none
  | c₁ :: c₂ :: rest =>
      match hexDigitVal? c₁, hexDigitVal? c₂ with
      | some hi, some lo =>
          (hexToBytes? rest).map (⟨(hi * 16 + lo) % 256, Nat.mod_lt _ (by omega)⟩ :: ·)
      | _, _ => none

/-! ## Serialization of the on-disk records (serde derives) -/

/-- Serialization of `Algorithm` (`#[serde(rename = "aes-256-gcm")]`). -/
def algorithmJson : Algorithm → Json
  | .aes256Gcm => .str "aes-256-gcm"

/-- Deserialization of `Algorithm`. -/
def algorithmFromJson? : Json → Option Algorithm
  | .str s => if s = "aes-256-gcm" then some .aes256Gcm else none
  | _ => none

/-- Serialization of `EncryptedData`: hex-encoded byte fields, and
`aad_context` skipped when absent (`skip_serializing_if`). -/
def encryptedDataJson (ed : EncryptedData) : Json :=
  .obj ([("algorithm", algorithmJson ed.algorithm),
         ("nonce", .str (bytesToHex ed.nonce)),
         ("ciphertext", .str (bytesToHex ed.ciphertext)),
         ("key_version", .int ed.keyVersion)] ++
        (match ed.aadContext with
         | some ctx => [("aad_context", .str ctx)]
         | none => []))

/-- Deserialization of `EncryptedData`; a missing `key_version` takes the
`u32` default 0 (`#[serde(default)]`), a missing or null `aad_context` is
`None`. -/
def encryptedDataFromJson? : Json → Option EncryptedData
  | .obj fields =>
      match assocFind "algorithm" fields, assocFind "nonce" fields,
            assocFind "ciphertext" fields with
      | some ja, some (.str jn), some (.str jc) =>
          match algorithmFromJson? ja, hexToBytes? jn.data, hexToBytes? jc.data with
          | some algorithm, some nonce, some ciphertext =>
              let keyVersion? : Option Nat := match assocFind "key_version" fields with
                | none => some 0
                | some (.int n) => if 0 ≤ n then some n.toNat else none
                | some _ => none
              let aad? : Option (Option String) := match assocFind "aad_context" fields with
                | none => some none
                | some .null => some none
                | some (.str s) => some (some s)
                | some _ => none
              match keyVersion?, aad? with
              | some keyVersion, some aadContext =>
                  some ⟨algorithm, nonce, ciphertext, keyVersion, aadContext⟩
              | _, _ => none
          | _, _, _ => none
      | _, _, _ => none
  | _ => none

mutual

/-- Serialization of `ConfigValue` (`#[serde(untagged)]`): each variant
serializes as its payload; a non-finite float becomes `null` under
`serde_json`. -/
def configValueJson : ConfigValue → Json
  | .string s => .str s
  | .integer n => .int n
  | .float bits => if isFiniteF64 bits then .double bits else .null
  | .boolean b => .bool b
  | .array xs => .arr (configValueJsonList xs)
  | .object fields => .obj (configValueJsonFields fields)
  | .secret ed => encryptedDataJson ed

/-- Serialization of a `Vec<ConfigValue>`. -/
def configValueJsonList : List ConfigValue → List Json
  | [] => []
  | v :: rest => configValueJson v :: configValueJsonList rest

/-- Serialization of a `HashMap<String, ConfigValue>`, as its entry list. -/
def configValueJsonFields :
    List (String × ConfigValue) → List (String × Json)
  | [] => []
  | (k, v) :: rest => (k, configValueJson v) :: configValueJsonFields rest

end

mutual

/-- Deserialization of `ConfigValue`: the untagged derive tries the variants
in declaration order — `String`, `Integer`, `Float`, `Boolean`, `Array`,
`Object`, `Secret` — so an integral number lands in `Integer`, and an object
whose field values all parse as values lands in `Object` before `Secret` is
ever tried. -/
def configValueFromJson? : Json → Option ConfigValue
  | .str s => some (.string s)
  | .int n => some (.integer n)
  | .double bits => some (.float bits)
  | .bool b => some (.boolean b)
  | .null => none
  | .arr xs => (configValueFromJsonList xs).map .array
  | .obj fields =>
      match configValueFromJsonFields fields with
      | some fs => some (.object fs)
      | none => (encryptedDataFromJson? (.obj fields)).map .secret

/-- Deserialization of a list of values; any failing element fails the
`Array` variant. -/
def configValueFromJsonList : List Json → Option (List ConfigValue)
  | [] => some []
  | j :: rest =>
      match configValueFromJson? j with
      | some v => (configValueFromJsonList rest).map (v :: ·)
      | none => none

/-- Deserialization of the entries of a `HashMap<String, ConfigValue>`. -/
def configValueFromJsonFields :
    List (String × Json) → Option (List (String × ConfigValue))
  | [] => some []
  | (k, j) :: rest =>
      match configValueFromJson? j with
      | some v => (configValueFromJsonFields rest).map ((k, v) :: ·)
      | none => none

end

mutual

/-- A value is JSON-safe when it contains no `Secret` and every float is
finite; these are exactly the values whose serde round-trip can be the
identity. -/
def valueJsonSafe : ConfigValue → Bool
  | .string _ => true
  | .integer _ => true
  | .float bits => isFiniteF64 bits
  | .boolean _ => true
  | .array xs => valueJsonSafeList xs
  | .object fields => valueJsonSafeFields fields
  | .secret _ => false

/-- JSON-safety of a list of values. -/
def valueJsonSafeList : List ConfigValue → Bool
  | [] => true
  | v :: rest => valueJsonSafe v && valueJsonSafeList rest

/-- JSON-safety of the entries of an object. -/
def valueJsonSafeFields : List (String × ConfigValue) → Bool
  | [] => true
  | (_, v) :: rest => valueJsonSafe v && valueJsonSafeFields rest

end

/-- Serialization of `ConfigMetadata`; `DateTime<Utc>` values are rendered
through the injective instant encoding, `description` is skipped when
absent. -/
def metadataJson (m : ConfigMetadata) : Json :=
  .obj ([("created_at", .str (natToString m.createdAt)),
         ("created_by", .str m.createdBy),
         ("updated_at", .str (natToString m.updatedAt)),
         ("updated_by", .str m.updatedBy),
         ("tags", .arr (m.tags.map .str))] ++
        (match m.description with
         | some d => [("description", .str d)]
         | none => []))

/-- Deserialization of a list of strings (the `tags` vector). -/
def strListFromJson? : List Json → Option (List String)
  | [] => some []
  | .str s :: rest => (strListFromJson? rest).map (s :: ·)
  | _ :: _ => none

/-- Deserialization of `ConfigMetadata`; missing `tags` take the default
empty vector (`#[serde(default)]`), a missing or null `description` is
`None`. -/
def metadataFromJson? : Json → Option ConfigMetadata
  | .obj fields =>
      match assocFind "created_at" fields, assocFind "created_by" fields,
            assocFind "updated_at" fields, assocFind "updated_by" fields with
      | some (.str jca), some (.str jcb), some (.str jua), some (.str jub) =>
          match parseNat? jca, parseNat? jua with
          | some createdAt, some updatedAt =>
              let tags? : Option (List String) := match assocFind "tags" fields with
                | none => some []
                | some (.arr xs) => strListFromJson? xs
                | some _ => none
              let description? : Option (Option String) :=
                match assocFind "description" fields with
                | none => some none
                | some .null => some none
                | some (.str s) => some (some s)
                | some _ => none
              match tags?, description? with
              | some tags, some description =>
                  some ⟨createdAt, jcb, updatedAt, jub, tags, description⟩
              | _, _ => none
          | _, _ => none
      | _, _, _, _ => none
  | _ => none

/-- Deserialization of `Environment` (`rename_all = "lowercase"`). -/
def envFromJson? : Json → Option Environment
  | .str s =>
      if s = "base" then some .base
      else if s = "development" then some .development
      else if s = "staging" then some .staging
      else if s = "production" then some .production
      else if s = "edge" then some .edge
      else none
  | _ => none

/-- Serialization of a `ConfigEntry` (the contents of a
`configs/<NS>_<KEY>_<ENV>.json` file). -/
def configEntryJson (e : ConfigEntry) : Json :=
  .obj [("id", .str (natToString e.id)),
        ("namespace", .str e.nspace),
        ("key", .str e.key),
        ("value", configValueJson e.value),
        ("environment", .str (envToString e.environment)),
        ("version", .int e.version),
        ("metadata", metadataJson e.metadata)]

/-- Deserialization of a `ConfigEntry`. -/
def configEntryFromJson? : Json → Option ConfigEntry
  | .obj fields =>
      match assocFind "id" fields, assocFind "namespace" fields,
            assocFind "key" fields, assocFind "value" fields with
      | some (.str jid), some (.str nspace), some (.str key), some jv =>
          match assocFind "environment" fields, assocFind "version" fields,
                assocFind "metadata" fields with
          | some jenv, some (.int jver), some jm =>
              match parseNat? jid, configValueFromJson? jv, envFromJson? jenv,
                    metadataFromJson? jm with
              | some id, some value, some environment, some metadata =>
                  if 0 ≤ jver then
                    some ⟨id, nspace, key, value, environment, jver.toNat, metadata⟩
                  else none
              | _, _, _, _ => none
          | _, _, _ => none
      | _, _, _, _ => none
  | _ => none

/-- Serialization of a `VersionEntry` (the contents of a
`versions/<UUID>.json` file); `change_description` has no skip attribute, so
`None` serializes as `null`. -/
def versionEntryJson (v : VersionEntry) : Json :=
  .obj [("version", .int v.version),
        ("config_id", .str (natToString v.configId)),
        ("namespace", .str v.nspace),
        ("key", .str v.key),
        ("value", configValueJson v.value),
        ("environment", .str (envToString v.environment)),
        ("created_at", .str (natToString v.createdAt)),
        ("created_by", .str v.createdBy),
        ("change_description",
          match v.changeDescription with
          | some d => .str d
          | none => .null)]

/-- Deserialization of a `VersionEntry`. -/
def versionEntryFromJson? : Json → Option VersionEntry
  | .obj fields =>
      match assocFind "version" fields, assocFind "config_id" fields,
            assocFind "namespace" fields, assocFind "key" fields with
      | some (.int jver), some (.str jcid), some (.str nspace), some (.str key) =>
          match assocFind "value" fields, assocFind "environment" fields,
                assocFind "created_at" fields, assocFind "created_by" fields with
          | some jv, some jenv, some (.str jca), some (.str jcb) =>
              match parseNat? jcid, configValueFromJson? jv, envFromJson? jenv,
                    parseNat? jca with
              | some configId, some value, some environment, some createdAt =>
                  let desc? : Option (Option String) :=
                    match assocFind "change_description" fields with
                    | none => some none
                    | some .null => some none
                    | some (.str s) => some (some s)
                    | some _ => none
                  match desc? with
                  | some changeDescription =>
                      if 0 ≤ jver then
                        some ⟨jver.toNat, configId, nspace, key, value,
                              environment, createdAt, jcb, changeDescription⟩
                      else none
                  | none => none
              | _, _, _, _ => none
          | _, _, _, _ => none
      | _, _, _, _ => none
  | _ => none

/-! ## Input validation (`llm-config-security/src/input.rs`) -/

/-- Error sum of the security crate (`SecurityError`), restricted to the
variants reachable from the operations modelled here. -/
inductive SecurityError where
  | validationError (msg : String)
  | sqlInjectionAttempt
  | xssAttempt
  | pathTraversalAttempt
  | commandInjectionAttempt
  | rateLimitExceeded (msg : String)
deriving DecidableEq, Repr

/-- Sanitization configuration (`SanitizationConfig`). -/
structure SanitizationConfig where
  maxLength : Nat
  allowSpecialChars : Bool
  allowHtml : Bool
  trimWhitespace : Bool
deriving DecidableEq, Repr

/-- Default sanitization configuration (`SanitizationConfig::default`). -/
def SanitizationConfig.default : SanitizationConfig :=
  { maxLength := 1000
    allowSpecialChars := false
    allowHtml := false
    trimWhitespace := true }

/-- ASCII lowercasing, the model of the case folding used by the `(?i)`
regex patterns (which contain ASCII letters only). -/
def lowerChar (c : Char) : Char :=
  if 65 ≤ c.toNat ∧ c.toNat ≤ 90 then Char.ofNat (c.toNat + 32) else c

/-- Word character in the ASCII model of the regex class `\w`. -/
def isWordChar (c : Char) : Bool := c.isAlphanum || c = '_'

/-- Case-insensitive prefix match; the pattern is given lowercase. -/
def startsWithCi : List Char → List Char → Bool
  | [], _ => true
  | _ :: _, [] => false
  | p :: ps, c :: cs => lowerChar c = p && startsWithCi ps cs

/-- Case-sensitive prefix match. -/
def startsWithCs : List Char → List Char → Bool
  | [], _ => true
  | _ :: _, [] => false
  | p :: ps, c :: cs => c = p && startsWithCs ps cs

/-- Case-insensitive substring search. -/
def containsCi (pat : List Char) : List Char → Bool
  | [] => pat.isEmpty
  | c :: cs => startsWithCi pat (c :: cs) || containsCi pat cs

/-- Case-sensitive substring search. -/
def containsCs (pat : List Char) : List Char → Bool
  | [] => pat.isEmpty
  | c :: cs => startsWithCs pat (c :: cs) || containsCs pat cs

/-- Case-sensitive substring search confined to the stretch before the next
newline — the reach of `.*` in the default regex mode. -/
def containsCsNoNl (pat : List Char) : List Char → Bool
  | [] => pat.isEmpty
  | c :: cs => startsWithCs pat (c :: cs) || (c ≠ '\n' && containsCsNoNl pat cs)

/-- Case-insensitive variant of the newline-confined substring search. -/
def containsCiNoNl (pat : List Char) : List Char → Bool
  | [] => pat.isEmpty
  | c :: cs => startsWithCi pat (c :: cs) || (c ≠ '\n' && containsCiNoNl pat cs)

/-- Word boundary against the preceding character (`\b` on the left side of
a word). -/
def boundaryOk : Option Char → Bool
  | none => true
  | some c => !isWordChar c

/-- Match of `w\b` at the head of `s` (case-insensitive, `w` lowercase): `w`
is a prefix and is not followed by a word character. -/
def wordHere (w : List Char) (s : List Char) : Bool :=
  startsWithCi w s &&
    (match s.drop w.length with
     | [] => true
     | c :: _ => !isWordChar c)

/-- Search for `\bw\b` starting inside the newline-free stretch, carrying
the preceding character for the left boundary. -/
def findWordNoNl (w : List Char) (prev : Option Char) : List Char → Bool
  | [] => false
  | c :: cs =>
      (boundaryOk prev && wordHere w (c :: cs)) ||
      (c ≠ '\n' && findWordNoNl w (some c) cs)

/-- Matcher for the patterns of shape `(?i)\bw₁\b.*\bw₂\b` (the SQL keyword
pairs): an occurrence of `\bw₁\b` followed, before the next newline, by an
occurrence of `\bw₂\b`. -/
def wordGapWord (w₁ w₂ : List Char) (prev : Option Char) : List Char → Bool
  | [] => false
  | c :: cs =>
      (boundaryOk prev && wordHere w₁ (c :: cs) &&
        findWordNoNl w₂ (((c :: cs).take w₁.length).getLast?)
          ((c :: cs).drop w₁.length)) ||
      wordGapWord w₁ w₂ (some c) cs

/-- Matcher for `(?i)(;.*(--)|(#))`: a `;` followed by `--` before the next
newline, or a `#` anywhere. -/
def semiThenDashes : List Char → Bool
  | [] => false
  | c :: cs => (c = ';' && containsCsNoNl ['-', '-'] cs) || semiThenDashes cs

/-- Tail of the `exec` pattern after the separators: `(s|x)p\w+`. -/
def execSxp : List Char → Bool
  | [] => false
  | c :: cs =>
      (lowerChar c = 's' || lowerChar c = 'x') &&
      (match cs with
       | c₂ :: cs₂ =>
           lowerChar c₂ = 'p' &&
           (match cs₂ with
            | c₃ :: _ => isWordChar c₃
            | [] => false)
       | [] => false)

/-- Separator run of the `exec` pattern: `(\s|\+)+` then `(s|x)p\w+`; the
run is maximal, which coincides with match existence. -/
def execSepRun : List Char → Bool
  | [] => false
  | c :: cs =>
      if c.isWhitespace || c = '+' then execSepRun cs || execSxp cs
      else false

/-- Matcher for `(?i)\bexec(\s|\+)+(s|x)p\w+`. -/
def execXpMatch (prev : Option Char) : List Char → Bool
  | [] => false
  | c :: cs =>
      (boundaryOk prev && startsWithCi ['e', 'x', 'e', 'c'] (c :: cs) &&
        execSepRun ((c :: cs).drop 4)) ||
      execXpMatch (some c) cs

/-- Continuation of the `<script>` pattern: `[^>]*>` (which may cross
newlines) then `.*?</script>` (which may not). -/
def scriptAfter : List Char → Bool
  | [] => false
  | c :: cs =>
      if c = '>' then
        containsCiNoNl ['<', '/', 's', 'c', 'r', 'i', 'p', 't', '>'] cs
      else scriptAfter cs

/-- Matcher for `(?i)<script[^>]*>.*?</script>`. -/
def scriptTagMatch : List Char → Bool
  | [] => false
  | c :: cs =>
      (startsWithCi ['<', 's', 'c', 'r', 'i', 'p', 't'] (c :: cs) &&
        scriptAfter ((c :: cs).drop 7)) ||
      scriptTagMatch cs

/-- Suffix of the `on…=` pattern after the word run: `\s*=`. -/
def onSpaceRest : List Char → Bool
  | [] => false
  | c :: cs => if c.isWhitespace then onSpaceRest cs else c = '='

/-- Word run of the `on…=` pattern; the run is maximal, which coincides with
match existence. -/
def onWordRest : List Char → Bool
  | [] => false
  | c :: cs => if isWordChar c then onWordRest cs else onSpaceRest (c :: cs)

/-- Matcher for `(?i)on\w+\s*=`. -/
def onAttrMatch : List Char → Bool
  | [] => false
  | c :: cs =>
      (startsWithCi ['o', 'n'] (c :: cs) &&
        (match (c :: cs).drop 2 with
         | c₂ :: cs₂ => isWordChar c₂ && onWordRest cs₂
         | [] => false)) ||
      onAttrMatch cs

/-- Matcher for `\$\(.*\)`. -/
def dollarParenMatch : List Char → Bool
  | [] => false
  | c :: cs =>
      (c = '$' &&
        (match cs with
         | c₂ :: cs₂ => c₂ = '(' && containsCsNoNl [')'] cs₂
         | [] => false)) ||
      dollarParenMatch cs

/-- Matcher for the backtick pair pattern. -/
def backtickPairMatch : List Char → Bool
  | [] => false
  | c :: cs => (c.toNat = 96 && containsCsNoNl [Char.ofNat 96] cs) ||
      backtickPairMatch cs

/-- The eight `SQL_INJECTION_PATTERNS`, in source order. -/
def detectSqlInjection (s : List Char) : Bool :=
  wordGapWord ['u', 'n', 'i', 'o', 'n'] ['s', 'e', 'l', 'e', 'c', 't'] none s ||
  wordGapWord ['d', 'r', 'o', 'p'] ['t', 'a', 'b', 'l', 'e'] none s ||
  wordGapWord ['i', 'n', 's', 'e', 'r', 't'] ['i', 'n', 't', 'o'] none s ||
  wordGapWord ['d', 'e', 'l', 'e', 't', 'e'] ['f', 'r', 'o', 'm'] none s ||
  wordGapWord ['u', 'p', 'd', 'a', 't', 'e'] ['s', 'e', 't'] none s ||
  (semiThenDashes s || s.any (· = '#')) ||
  (containsCs ['\''] s || containsCs ['-', '-'] s || containsCs [';'] s ||
   containsCs ['/', '*'] s || containsCs ['*', '/'] s ||
   containsCs ['@', '@'] s || containsCs ['@'] s) ||
  execXpMatch none s

/-- The eight `XSS_PATTERNS`, in source order; `detect_xss` is gated on
`allow_html`. -/
def detectXss (config : SanitizationConfig) (s : List Char) : Bool :=
  !config.allowHtml &&
  (scriptTagMatch s ||
   containsCi ['j', 'a', 'v', 'a', 's', 'c', 'r', 'i', 'p', 't', ':'] s ||
   onAttrMatch s ||
   containsCi ['<', 'i', 'f', 'r', 'a', 'm', 'e'] s ||
   containsCi ['<', 'e', 'm', 'b', 'e', 'd'] s ||
   containsCi ['<', 'o', 'b', 'j', 'e', 'c', 't'] s ||
   containsCi ['e', 'v', 'a', 'l', '('] s ||
   containsCi ['e', 'x', 'p', 'r', 'e', 's', 's', 'i', 'o', 'n', '('] s)

/-- The `PATH_TRAVERSAL_PATTERNS` (case-sensitive, the first one
duplicated in the source), in source order. -/
def detectPathTraversal (s : List Char) : Bool :=
  containsCs ['.', '.', '/'] s ||
  containsCs ['.', '.', '/'] s ||
  containsCs ['%', '2', 'e', '%', '2', 'e', '/'] s ||
  containsCs ['%', '2', 'e', '%', '2', 'e', '\\'] s ||
  containsCs ['.', '.', '\\'] s

/-- The three `COMMAND_INJECTION_PATTERNS`, in source order. -/
def detectCommandInjection (s : List Char) : Bool :=
  s.any (fun c => c = ';' || c = '&' || c = '|' || c.toNat = 96 || c = '$' || c = '\n') ||
  dollarParenMatch s ||
  backtickPairMatch s

/-- The two `LDAP_INJECTION_PATTERNS`, in source order. -/
def detectLdapInjection (s : List Char) : Bool :=
  s.any (fun c => c = '*' || c = '(' || c = ')' || c = '\\') ||
  s.any (fun c => c.toNat = 0)

/-- Whitespace trimming on both ends (`str::trim`). -/
def trimChars (s : List Char) : List Char :=
  ((s.dropWhile Char.isWhitespace).reverse.dropWhile Char.isWhitespace).reverse

/-- Replacement of one character by a string (`str::replace`). -/
def replaceCharBy (c : Char) (rep : List Char) : List Char → List Char
  | [] => []
  | a :: rest => (if a = c then rep else [a]) ++ replaceCharBy c rep rest

/-- The `html_escape` helper: the six replacements in source order. -/
def htmlEscape (s : List Char) : List Char :=
  replaceCharBy '/' ['&', '#', 'x', '2', 'F', ';']
    (replaceCharBy '\'' ['&', '#', 'x', '2', '7', ';']
      (replaceCharBy '"' ['&', 'q', 'u', 'o', 't', ';']
        (replaceCharBy '>' ['&', 'g', 't', ';']
          (replaceCharBy '<' ['&', 'l', 't', ';']
            (replaceCharBy '&' ['&', 'a', 'm', 'p', ';'] s)))))

/-- Control character in the sense of Rust `char::is_control` (Unicode
category Cc). -/
def isControlCc (c : Char) : Bool :=
  c.toNat < 0x20 || (0x7F ≤ c.toNat && c.toNat ≤ 0x9F)

/-- The `InputValidator::sanitize` pipeline: trim, strip null bytes,
HTML-escape unless HTML is allowed, strip control characters other than
newline, carriage return and tab. -/
def sanitize (config : SanitizationConfig) (input : List Char) : List Char :=
  let s₁ := if config.trimWhitespace then trimChars input else input
  let s₂ := s₁.filter (fun c => c.toNat ≠ 0)
  let s₃ := if !config.allowHtml then htmlEscape s₂ else s₂
  s₃.filter (fun c => !isControlCc c || c = '\n' || c = '\r' || c = '\t')

/-- UTF-8 byte length of the input (`str::len`). -/
def byteLen (s : List Char) : Nat := (s.map Char.utf8Size).sum

/-- The `InputValidator::validate` pipeline: length check, then the SQL,
XSS, path-traversal and command-injection detectors in source order, then
sanitization. The LDAP detector exists in the source but is never called
from `validate`. -/
def validate (config : SanitizationConfig) (input : List Char) :
    Except SecurityError (List Char) :=
  if byteLen input > config.maxLength then
    .error (.validationError
      ("Input exceeds maximum length of " ++ toString config.maxLength ++
        " characters"))
  else if detectSqlInjection input then .error .sqlInjectionAttempt
  else if detectXss config input then .error .xssAttempt
  else if detectPathTraversal input then .error .pathTraversalAttempt
  else if detectCommandInjection input then .error .commandInjectionAttempt
  else .ok (sanitize config input)

/-! ## Rate limiter (`llm-config-security/src/rate_limit.rs`) -/

/-- Rate limit configuration (`RateLimitConfig`). -/
structure RateLimitConfig where
  authenticatedRps : Nat
  unauthenticatedRps : Nat
  burstSize : Nat
  windowSeconds : Nat
  banDurationSeconds : Nat
  banThreshold : Nat
deriving DecidableEq, Repr

/-- Per-IP limiter record (`IpLimiter`); the token-bucket state of the
external `governor` crate is abstracted away, its check outcomes being
oracle inputs of `checkRequest`. -/
structure IpLimiterState where
  violations : Nat
  lastViolation : Nat
deriving DecidableEq, Repr

/-- Ban record (`BanInfo`). -/
structure BanInfo where
  bannedAt : Nat
  reason : String
  violations : Nat
deriving DecidableEq, Repr

/-- Mutable state of a `RateLimiter`: the per-IP limiter map and the ban
list; IP addresses are modelled as strings. -/
structure RateLimiterState where
  perIpLimiters : List (String × IpLimiterState)
  bannedIps : List (String × BanInfo)
deriving DecidableEq, Repr

/-- `RateLimiter::is_banned`: a ban entry exists and has not yet aged past
the ban duration (`Instant::elapsed` becomes `now - bannedAt`). -/
def isBanned (config : RateLimitConfig) (st : RateLimiterState) (now : Nat)
    (ip : String) : Bool :=
  match assocFind ip st.bannedIps with
  | some banInfo => now - banInfo.bannedAt < config.banDurationSeconds
  | none => false

/-- `RateLimiter::ban_ip`. -/
def banIp (st : RateLimiterState) (ip : String) (reason : String)
    (violations : Nat) (now : Nat) : RateLimiterState :=
  { st with bannedIps := assocInsert ip ⟨now, reason, violations⟩ st.bannedIps }

/-- `RateLimiter::record_violation`: bump the violation counter of an
already-tracked IP and ban it once the counter reaches the threshold; an IP
with no limiter entry is left untouched (`get_mut` misses). -/
def recordViolation (config : RateLimitConfig) (st : RateLimiterState)
    (now : Nat) (ip : String) (reason : String) : RateLimiterState :=
  match assocFind ip st.perIpLimiters with
  | some ipLimiter =>
      let bumped : IpLimiterState :=
        { violations := ipLimiter.violations + 1, lastViolation := now }
      let st₁ := { st with perIpLimiters := assocInsert ip bumped st.perIpLimiters }
      if config.banThreshold ≤ bumped.violations then
        banIp st₁ ip reason bumped.violations now
      else st₁
  | none => st

/-- `RateLimiter::check_request`. The global and per-IP token-bucket
outcomes of the `governor` crate are the oracle arguments `globalAllow` and
`ipAllow`; the ban check comes first, a failing global check records a
violation, the per-IP limiter entry is created on first contact, and a
failing per-IP check records a violation. -/
def checkRequest (config : RateLimitConfig) (st : RateLimiterState) (now : Nat)
    (ip : String) (_authenticated : Bool) (globalAllow ipAllow : Bool) :
    Except SecurityError Unit × RateLimiterState :=
  if isBanned config st now ip then
    (.error (.rateLimitExceeded "IP address is temporarily banned"), st)
  else if !globalAllow then
    (.error (.rateLimitExceeded "Too many requests. Please try again later"),
     recordViolation config st now ip "Global rate limit exceeded")
  else
    let st₁ := match assocFind ip st.perIpLimiters with
      | some _ => st
      | none =>
          { st with perIpLimiters :=
              assocInsert ip ⟨0, now⟩ st.perIpLimiters }
    if !ipAllow then
      (.error (.rateLimitExceeded "Too many requests from IP"),
       recordViolation config st₁ now ip "Per-IP rate limit exceeded")
    else (.ok (), st₁)

/-! ## Two-tier cache (`llm-config-cache`) -/

/-- Cached entry with access metadata (`CachedEntry` in `l1.rs`). -/
structure CachedEntry where
  entry : ConfigEntry
  accessedAt : Nat
  accessCount : Nat
deriving Repr

/-- State of an `L1Cache`. -/
structure L1Cache where
  cache : List (String × CachedEntry)
  maxSize : Nat
  hitCount : Nat
  missCount : Nat
deriving Repr

/-- `L1Cache::new`. -/
def l1New (maxSize : Nat) : L1Cache :=
  { cache := [], maxSize := maxSize, hitCount := 0, missCount := 0 }

/-- Fingerprint construction (`cache_key` in `l1.rs` / `l2.rs`). -/
def cacheKeyOf (nspace key env : String) : String :=
  nspace ++ ":" ++ key ++ ":" ++ env

/-- `L1Cache::get`: on a hit refresh the access metadata and bump the hit
counter, on a miss bump the miss counter. -/
def l1Get (c : L1Cache) (nspace key env : String) (now : Nat) :
    Option ConfigEntry × L1Cache :=
  let ck := cacheKeyOf nspace key env
  match assocFind ck c.cache with
  | some cached =>
      (some cached.entry,
       { c with
           cache := assocInsert ck
             { cached with accessedAt := now, accessCount := cached.accessCount + 1 }
             c.cache
           hitCount := c.hitCount + 1 })
  | none => (none, { c with missCount := c.missCount + 1 })

/-- First key holding the minimal `accessed_at` (`min_by_key` over the map
iteration, modelled by the list order). -/
def minByAccessedAt : List (String × CachedEntry) → Option String
  | [] => none
  | (k, v) :: rest =>
      match minByAccessedAt rest with
      | none => some k
      | some k₂ =>
          match assocFind k₂ rest with
          | some v₂ => if v.accessedAt ≤ v₂.accessedAt then some k else some k₂
          | none => some k

/-- `L1Cache::evict_lru`: drop the least recently used entry; an empty cache
is left unchanged. -/
def evictLru (cache : List (String × CachedEntry)) : List (String × CachedEntry) :=
  if cache.isEmpty then cache
  else
    match minByAccessedAt cache with
    | some lruKey => assocErase lruKey cache
    | none => cache

/-- `L1Cache::put`: evict when at capacity and the key is new, then insert
with fresh access metadata. -/
def l1Put (c : L1Cache) (entry : ConfigEntry) (now : Nat) : L1Cache :=
  let ck := cacheKeyOf entry.nspace entry.key (envToString entry.environment)
  let cache₁ :=
    if c.maxSize ≤ c.cache.length ∧ (assocFind ck c.cache).isNone then
      evictLru c.cache
    else c.cache
  { c with cache := assocInsert ck ⟨entry, now, 1⟩ cache₁ }

/-- State of an `L2Cache`: the fingerprint index, with the per-fingerprint
file contents inlined (one parsed entry per `.cache` file). -/
structure L2Cache where
  index : List (String × ConfigEntry)
deriving Repr

/-- `L2Cache::get`. -/
def l2Get (c : L2Cache) (nspace key env : String) : Option ConfigEntry :=
  assocFind (cacheKeyOf nspace key env) c.index

/-- `L2Cache::put`: atomic file write then index insert. -/
def l2Put (c : L2Cache) (entry : ConfigEntry) : L2Cache :=
  { index := assocInsert
      (cacheKeyOf entry.nspace entry.key (envToString entry.environment))
      entry c.index }

/-- The two-tier `CacheManager`. -/
structure CacheManager where
  l1 : L1Cache
  l2 : L2Cache
deriving Repr

/-- `CacheManager::new`. -/
def cacheManagerNew (l1Size : Nat) : CacheManager :=
  { l1 := l1New l1Size, l2 := { index := [] } }

/-- `CacheManager::get`: try tier 1, then tier 2 with promotion into
tier 1, else a miss. -/
def cacheManagerGet (m : CacheManager) (nspace key env : String) (now : Nat) :
    Option ConfigEntry × CacheManager :=
  match l1Get m.l1 nspace key env now with
  | (some entry, l1₁) => (some entry, { m with l1 := l1₁ })
  | (none, l1₁) =>
      match l2Get m.l2 nspace key env with
      | some entry => (some entry, { m with l1 := l1Put l1₁ entry now })
      | none => (none, { m with l1 := l1₁ })

/-- `CacheManager::put`: write through to tier 1 then tier 2. -/
def cacheManagerPut (m : CacheManager) (entry : ConfigEntry) (now : Nat) :
    CacheManager :=
  { l1 := l1Put m.l1 entry now, l2 := l2Put m.l2 entry }

/-! ## Auxiliary definitions for the stated properties -/

/-- Absence of the colon character in a string; storage index keys of
colon-free namespaces and keys cannot collide. -/
def colonFree (s : String) : Bool := s.data.all (· ≠ ':')

/-- Maximum of a list of naturals, `none` on the empty list. -/
def natListMax? : List Nat → Option Nat
  | [] => none
  | x :: xs =>
      some (match natListMax? xs with
            | none => x
            | some m => max x m)

/-- States reachable from a fresh manager over an empty directory by
`set` / `rollback` calls with arbitrary arguments and instants. -/
inductive Reaches : ManagerState → Prop where
  | init (nextId : Nat) (encryptionKey : Option SecretKey) :
      Reaches { storage := Storage.empty, nextId := nextId,
                encryptionKey := encryptionKey }
  | set (st : ManagerState) (nspace key : String) (value : ConfigValue)
      (env : Environment) (user : String) (now : Nat) (h : Reaches st) :
      Reaches (managerSet st nspace key value env user now).2
  | rollback (st : ManagerState) (nspace key : String) (env : Environment)
      (targetVersion now : Nat) (h : Reaches st) :
      Reaches (managerRollback st nspace key env targetVersion now).2

/-- Toy authenticated cipher used to discharge the `AeadPrimitive`
interface on concrete inputs: the tag is the key itself, appended to the
plaintext. -/
def toySeal (k _n _aad p : List Byte) : List Byte := p ++ k

/-- Opening for the toy cipher: check the trailing key-length bytes against
the key and strip them. -/
def toyOpen (k _n _aad c : List Byte) : Option (List Byte) :=
  if c.drop (c.length - k.length) = k then some (c.take (c.length - k.length))
  else none

/-- The toy cipher packaged as an `AeadPrimitive`. -/
def toyAead : AeadPrimitive where
  aeadSeal := toySeal
  aeadOpen := toyOpen
  seal_open := by
    intro k n aad p _ _
    have hlen : (p ++ k).length - k.length = p.length := by
      simp [List.length_append]
    simp [toyOpen, toySeal, hlen, List.drop_left, List.take_left]
  key_binding := by
    intro k k' n aad p hk hk' _ hne
    have hlen : (p ++ k).length - k'.length = p.length := by
      simp [List.length_append, hk, hk']
    simp only [toyOpen, toySeal, hlen]
    rw [List.drop_left]
    simp [hne]

/-- Manager state after one `set` on the triple `("a::b", "c", development)`
over an empty directory; its storage index key collides with the key of the
triple `("a", "b::c", development)`. -/
def collidingState : ManagerState :=
  (managerSet ManagerState.empty "a::b" "c" (ConfigValue.string "x")
    Environment.development "u" 0).2

/-- Manager state after one `set` on `("n", "k", development)` over an empty
directory; the created entry has id 0 and version 1. -/
def oneSetState : ManagerState :=
  (managerSet ManagerState.empty "n" "k" (ConfigValue.string "a")
    Environment.development "u" 0).2

/-- Manager state with a `Base` value 30 and a `Production` override 60 for
`("app", "timeout")`, as in the override scenario of the spec. -/
def overrideState : ManagerState :=
  (managerSet
    (managerSet ManagerState.empty "app" "timeout" (ConfigValue.integer 30)
      Environment.base "admin" 0).2
    "app" "timeout" (ConfigValue.integer 60) Environment.production "admin" 1).2

/-- A concrete ciphertext record with empty payloads. -/
def sampleEncrypted : EncryptedData :=
  { algorithm := .aes256Gcm, nonce := [], ciphertext := [], keyVersion := 1,
    aadContext := none }

/-- A concrete configuration entry for the cache scenarios. -/
def sampleEntry : ConfigEntry :=
  ConfigEntry.new 0 "ns" "key1" (ConfigValue.string "test-value")
    Environment.development 0

/-- A cache manager whose tier-1 cache was created with capacity 0, after
one `put` of `sampleEntry` and one `get` of its fingerprint. -/
def zeroCapAfterPutGet : CacheManager :=
  (cacheManagerGet (cacheManagerPut (cacheManagerNew 0) sampleEntry 1)
    "ns" "key1" "development" 2).2

/-- Consistency of the storage index: every stored entry sits under the
index key derived from its own triple. -/
def slotConsistent (stor : Storage) : Prop :=
  ∀ k e, assocFind k stor.configs = some e →
    makeKey e.nspace e.key e.environment = k

/-- Version-tracking invariant of one triple: when a current entry exists,
its version is the maximum version among the triple's version records, and
a triple with no current entry has no version records. -/
def tripleInv (stor : Storage) (nspace key : String) (env : Environment) :
    Prop :=
  match storageGet stor nspace key env with
  | some e =>
      natListMax? ((stor.versions.filter
        (versionMatches nspace key env)).map (·.version)) = some e.version
  | none => stor.versions.filter (versionMatches nspace key env) = []

/-- Full manager invariant: index consistency plus the version-tracking
invariant of every colon-free triple. -/
def managerInv (stor : Storage) : Prop :=
  slotConsistent stor ∧
  ∀ nspace key env, colonFree nspace = true → colonFree key = true →
    tripleInv stor nspace key env

/-- A rate-limit configuration with ban threshold 1 and a 60-second ban. -/
def rlConfig : RateLimitConfig :=
  { authenticatedRps := 10, unauthenticatedRps := 10, burstSize := 10,
    windowSeconds := 60, banDurationSeconds := 60, banThreshold := 1 }

/-- A limiter state tracking one IP with no violations yet. -/
def rlStart : RateLimiterState :=
  { perIpLimiters := [("1.2.3.4", { violations := 0, lastViolation := 0 })],
    bannedIps := [] }

/-- The limiter state after one recorded violation at instant 5, which
crosses the threshold and bans the IP. -/
def rlBanned : RateLimiterState :=
  recordViolation rlConfig rlStart 5 "1.2.3.4" "r"

/-! # Theorems -/

theorem assocFind_insert_self (k : String) (v : α) (l : List (String × α)) :
    assocFind k (assocInsert k v l) = some v := by
  induction l with
  | nil => simp [assocFind, assocInsert]
  | cons hd tl ih =>
      obtain ⟨k₁, v₁⟩ := hd
      by_cases h : k₁ = k <;> simp [assocFind, assocInsert, h, ih]

theorem assocFind_insert_ne (k k' : String) (v : α) (l : List (String × α))
    (h : k ≠ k') : assocFind k' (assocInsert k v l) = assocFind k' l := by
  induction l with
  | nil => simp [assocFind, assocInsert, h]
  | cons hd tl ih =>
      obtain ⟨k₁, v₁⟩ := hd
      by_cases h₁ : k₁ = k
      · subst h₁
        simp [assocFind, assocInsert, h]
      · by_cases h₂ : k₁ = k' <;>
          simp [assocFind, assocInsert, h₁, h₂, Ne.symm h, ih]

theorem gwoSelect_eq_specLastPresent (stor : Storage) (nspace key : String)
    (env : Environment) :
    gwoSelect stor nspace key env = specLastPresent stor nspace key env := by
  cases env
  case base =>
      cases hb : storageGet stor nspace key .base <;>
        simp [gwoSelect, specLastPresent, specOverrideChain, overrideEnvs, hb]
  case development =>
      cases hb : storageGet stor nspace key .base <;>
      cases hd : storageGet stor nspace key .development <;>
        simp [gwoSelect, specLastPresent, specOverrideChain, overrideEnvs, hb, hd]
  case staging =>
      cases hb : storageGet stor nspace key .base <;>
      cases hd : storageGet stor nspace key .development <;>
      cases hs : storageGet stor nspace key .staging <;>
        simp [gwoSelect, specLastPresent, specOverrideChain, overrideEnvs, hb, hd, hs]
  case production =>
      cases hb : storageGet stor nspace key .base <;>
      cases hd : storageGet stor nspace key .development <;>
      cases hs : storageGet stor nspace key .staging <;>
      cases hp : storageGet stor nspace key .production <;>
        simp [gwoSelect, specLastPresent, specOverrideChain, overrideEnvs,
          hb, hd, hs, hp]
  case edge =>
      cases hb : storageGet stor nspace key .base <;>
      cases he : storageGet stor nspace key .edge <;>
        simp [gwoSelect, specLastPresent, specOverrideChain, overrideEnvs, hb, he]

/-- C2: `Manager.set` updates an existing entry in place (value replaced,
version bumped by one, `updated_at`/`updated_by` refreshed) or creates a
fresh entry (version 1, both attribution fields set to the user, a fresh
id), and persists the returned entry under its triple. -/
theorem set_semantics (st : ManagerState) (nspace key : String)
    (value : ConfigValue) (env : Environment) (user : String) (now : Nat)
    (hids : ∀ k e, assocFind k st.storage.configs = some e → e.id < st.nextId) :
    (∀ ex, storageGet st.storage nspace key env = some ex →
      (managerSet st nspace key value env user now).1 =
        { ex with value := value, version := ex.version + 1,
                  metadata := { ex.metadata with
                                  updatedAt := now, updatedBy := user } }) ∧
    (storageGet st.storage nspace key env = none →
      (managerSet st nspace key value env user now).1 =
        { id := st.nextId, nspace := nspace, key := key, value := value,
          environment := env, version := 1,
          metadata := { createdAt := now, createdBy := user, updatedAt := now,
                        updatedBy := user, tags := [], description := none } } ∧
      ∀ k e, assocFind k st.storage.configs = some e →
        e.id ≠ (managerSet st nspace key value env user now).1.id) ∧
    storageGet (managerSet st nspace key value env user now).2.storage
        (managerSet st nspace key value env user now).1.nspace
        (managerSet st nspace key value env user now).1.key
        (managerSet st nspace key value env user now).1.environment =
      some (managerSet st nspace key value env user now).1 := by
  refine ⟨?_, ?_, ?_⟩
  · intro ex hex
    simp [managerSet, hex]
  · intro hnone
    constructor
    · simp [managerSet, hnone, ConfigEntry.new, ConfigMetadata.defaultAt]
    · intro k e he heq
      have hlt := hids k e he
      have : (managerSet st nspace key value env user now).1.id = st.nextId := by
        simp [managerSet, hnone, ConfigEntry.new]
      omega
  · cases hex : storageGet st.storage nspace key env <;>
      simp [managerSet, hex, storageGet, storageSet, createSnapshot,
        storeVersion, assocFind_insert_self]

/-- Witness for `set_semantics`: creating `("n", "k")` at instant 5 in an
empty manager yields the fully specified fresh entry and persists it. -/
theorem set_semantics_witness :
    (managerSet ManagerState.empty "n" "k" (ConfigValue.string "v")
        Environment.development "u" 5).1 =
      { id := 0, nspace := "n", key := "k", value := ConfigValue.string "v",
        environment := Environment.development, version := 1,
        metadata := { createdAt := 5, createdBy := "u", updatedAt := 5,
                      updatedBy := "u", tags := [], description := none } } ∧
    storageGet (managerSet ManagerState.empty "n" "k" (ConfigValue.string "v")
        Environment.development "u" 5).2.storage
      (managerSet ManagerState.empty "n" "k" (ConfigValue.string "v")
        Environment.development "u" 5).1.nspace
      (managerSet ManagerState.empty "n" "k" (ConfigValue.string "v")
        Environment.development "u" 5).1.key
      (managerSet ManagerState.empty "n" "k" (ConfigValue.string "v")
        Environment.development "u" 5).1.environment =
      some (managerSet ManagerState.empty "n" "k" (ConfigValue.string "v")
        Environment.development "u" 5).1 := by
  have h := set_semantics ManagerState.empty "n" "k" (ConfigValue.string "v")
    Environment.development "u" 5
    (by intro k e he; simp [ManagerState.empty, Storage.empty, assocFind] at he)
  exact ⟨(h.2.1 rfl).1, h.2.2⟩

/-- C6: rollback to a version number absent from the history of the triple
returns `none` and leaves the whole manager state — current entry and
history included — exactly as it was. -/
theorem rollback_missing_noop (st : ManagerState) (nspace key : String)
    (env : Environment) (targetVersion now : Nat)
    (h : targetVersion ∉ (getVersions st.storage nspace key env).map (·.version)) :
    managerRollback st nspace key env targetVersion now = (none, st) := by
  have hfind : (getVersions st.storage nspace key env).find?
      (fun v => v.version = targetVersion) = none := by
    apply List.find?_eq_none.mpr
    intro v hv
    simp only [decide_eq_true_eq]
    intro heq
    exact h (List.mem_map.mpr ⟨v, hv, heq⟩)
  simp [managerRollback, hfind]

/-- Witness for `rollback_missing_noop`: rolling an untouched triple back to
version 1 in an empty manager is a no-op returning `none`. -/
theorem rollback_missing_noop_witness :
    managerRollback ManagerState.empty "n" "k" Environment.development 1 0 =
      (none, ManagerState.empty) :=
  rollback_missing_noop ManagerState.empty "n" "k" Environment.development 1 0
    (by simp [ManagerState.empty, Storage.empty, getVersions, sortByVersionDesc])

/-- C4: `get_with_overrides` reads `Base` first and then exactly the
per-environment chain of the table, the last present value winning and the
`Base` value surviving when nothing overrides it (`none` when no entry
exists anywhere in the order); with no encryption key loaded the returned
value is exactly that selection. -/
theorem get_with_overrides_spec (prim : AeadPrimitive) (st : ManagerState)
    (nspace key : String) (env : Environment) :
    gwoSelect st.storage nspace key env =
      specLastPresent st.storage nspace key env ∧
    (st.encryptionKey = none →
      managerGetWithOverrides prim st nspace key env =
        .ok (specLastPresent st.storage nspace key env)) := by
  refine ⟨gwoSelect_eq_specLastPresent _ _ _ _, fun hk => ?_⟩
  rw [← gwoSelect_eq_specLastPresent]
  unfold managerGetWithOverrides
  cases hv : gwoSelect st.storage nspace key env with
  | none => simp
  | some v => cases v <;> simp [hk]

/-- Witness for `get_with_overrides_spec`: with base 30 and a production
override 60 for `("app", "timeout")` and no key, the production read
resolves through the spec's last-present selection. -/
theorem get_with_overrides_spec_witness :
    managerGetWithOverrides toyAead overrideState "app" "timeout"
        Environment.production =
      .ok (specLastPresent overrideState.storage "app" "timeout"
        Environment.production) :=
  (get_with_overrides_spec toyAead overrideState "app" "timeout"
    Environment.production).2 rfl

/-- C5 (amended): the id is stable across `set` updates of an existing
triple, but a successful `rollback` replaces the current entry with a brand
new one carrying a freshly generated id. -/
theorem id_stability (st : ManagerState) (nspace key : String)
    (value : ConfigValue) (env : Environment) (user : String)
    (targetVersion now : Nat) :
    (∀ ex, storageGet st.storage nspace key env = some ex →
      (managerSet st nspace key value env user now).1.id = ex.id) ∧
    (∀ e, (managerRollback st nspace key env targetVersion now).1 = some e →
      e.id = st.nextId) := by
  constructor
  · intro ex hex
    simp [managerSet, hex]
  · intro e he
    cases hfind : (getVersions st.storage nspace key env).find?
        (fun v => v.version = targetVersion) with
    | none => simp [managerRollback, hfind] at he
    | some version =>
        simp only [managerRollback, hfind] at he
        cases he
        simp [ConfigEntry.new]

/-- Witness for `id_stability`: in `oneSetState` the current entry of
`("n", "k", development)` has id 0, and a successful rollback hands back an
entry with the fresh id 1. -/
theorem id_stability_witness :
    (managerSet oneSetState "n" "k" (ConfigValue.string "b")
        Environment.development "u" 1).1.id = 0 ∧
    (managerRollback oneSetState "n" "k" Environment.development 1 1).1.map
        (·.id) = some 1 := by
  have h := id_stability oneSetState "n" "k" (ConfigValue.string "b")
    Environment.development "u" 1 1
  have hr : (managerRollback oneSetState "n" "k" Environment.development 1 1).1 =
      some ((managerRollback oneSetState "n" "k" Environment.development
        1 1).1.getD sampleEntry) := rfl
  have h₂ := h.2 _ hr
  exact ⟨h.1 _ rfl, by rw [hr, Option.map_some', h₂]; rfl⟩

/-- Counterexample for C5 as stated: after `set` then `rollback` on the same
triple, the current entry's id changes from 0 to 1, so the id is not stable
across sequences that include rollbacks. -/
theorem id_stability_counterexample :
    (storageGet oneSetState.storage "n" "k" Environment.development).map
        (·.id) = some 0 ∧
    (storageGet (managerRollback oneSetState "n" "k" Environment.development
        1 1).2.storage "n" "k" Environment.development).map (·.id) =
      some 1 := by
  constructor <;> rfl

/-- C3: for any AEAD primitive satisfying the seal/open contract, any
32-byte key and 12-byte nonce, decrypting an encryption under the same key
returns exactly the plaintext, and decrypting it under a key with different
bytes fails with `DecryptionFailed`. -/
theorem encrypt_decrypt (prim : AeadPrimitive) (key key' : SecretKey)
    (plaintext : List Byte) (aadContext : Option String) (nonce : List Byte)
    (hk : key.bytes.length = KEY_SIZE) (hn : nonce.length = NONCE_SIZE) :
    (encrypt prim key plaintext aadContext nonce).bind (decrypt prim key) =
      .ok plaintext ∧
    (key'.bytes.length = KEY_SIZE → key'.bytes ≠ key.bytes →
      (encrypt prim key plaintext aadContext nonce).bind (decrypt prim key') =
        .error (.decryptionFailed "aead")) := by
  obtain ⟨alg, kbytes⟩ := key
  cases alg
  simp only at hk
  constructor
  · cases aadContext <;>
      simp [encrypt, decrypt, hk, hn, Except.bind,
        prim.seal_open _ _ _ _ hk hn]
  · intro hk' hne
    obtain ⟨alg', kbytes'⟩ := key'
    cases alg'
    simp only at hk' hne
    have hopen := prim.key_binding kbytes kbytes' nonce
      (match aadContext with
       | some ctx => strUtf8 ctx
       | none => []) plaintext hk hk' hn (Ne.symm hne)
    cases aadContext <;>
      simp_all [encrypt, decrypt, hk, hk', hn, Except.bind]

/-- Witness for `encrypt_decrypt`: the toy primitive with two distinct
32-byte keys, a concrete plaintext and a 12-byte nonce. -/
theorem encrypt_decrypt_witness :
    (encrypt toyAead ⟨.aes256Gcm, List.replicate 32 0⟩ [2, 3] none
        (List.replicate 12 0)).bind
      (decrypt toyAead ⟨.aes256Gcm, List.replicate 32 0⟩) = .ok [2, 3] ∧
    (encrypt toyAead ⟨.aes256Gcm, List.replicate 32 0⟩ [2, 3] none
        (List.replicate 12 0)).bind
      (decrypt toyAead ⟨.aes256Gcm, List.replicate 32 1⟩) =
      .error (.decryptionFailed "aead") := by
  have h := encrypt_decrypt toyAead ⟨.aes256Gcm, List.replicate 32 0⟩
    ⟨.aes256Gcm, List.replicate 32 1⟩ [2, 3] none (List.replicate 12 0)
    (by simp [KEY_SIZE]) (by simp [NONCE_SIZE])
  exact ⟨h.1, h.2 (by simp [KEY_SIZE]) (by decide)⟩

/-- C10 (amended): with tier-1 capacity 0, a `put` still inserts into
tier 1 after a no-op eviction, so tier 1 holds exactly one entry rather than
staying empty (while the entry is also written through to tier 2), and a
`get` of a key present in tier 1 is served by tier 1 (hit counter bumped),
not by tier 2. -/
theorem zero_capacity_cache (m : CacheManager) (entry : ConfigEntry)
    (nspace key env : String) (now : Nat) (hcap : m.l1.maxSize = 0) :
    (m.l1.cache.length ≤ 1 →
      (cacheManagerPut m entry now).l1.cache.length = 1 ∧
      assocFind (cacheKeyOf entry.nspace entry.key
          (envToString entry.environment))
        (cacheManagerPut m entry now).l2.index = some entry) ∧
    (∀ cached, assocFind (cacheKeyOf nspace key env) m.l1.cache = some cached →
      (cacheManagerGet m nspace key env now).1 = some cached.entry ∧
      (cacheManagerGet m nspace key env now).2.l1.hitCount =
        m.l1.hitCount + 1) := by
  constructor
  · intro hlen
    constructor
    · match hc : m.l1.cache, hlen with
      | [], _ =>
          simp [cacheManagerPut, l1Put, hc, hcap, evictLru, assocFind,
            assocInsert]
      | [(k₁, v₁)], _ =>
          by_cases hk : k₁ = cacheKeyOf entry.nspace entry.key
            (envToString entry.environment) <;>
            simp [cacheManagerPut, l1Put, hc, hcap, evictLru, minByAccessedAt,
              assocFind, assocErase, assocInsert, hk]
    · simp [cacheManagerPut, l2Put, assocFind_insert_self]
  · intro cached hfound
    simp [cacheManagerGet, l1Get, hfound]

/-- Witness for `zero_capacity_cache`: the concrete capacity-0 manager after
one put, queried at the entry's fingerprint. -/
theorem zero_capacity_cache_witness :
    ((cacheManagerPut (cacheManagerNew 0) sampleEntry 1).l1.cache.length = 1 ∧
      assocFind (cacheKeyOf sampleEntry.nspace sampleEntry.key
          (envToString sampleEntry.environment))
        (cacheManagerPut (cacheManagerNew 0) sampleEntry 1).l2.index =
        some sampleEntry) ∧
    ((cacheManagerGet (cacheManagerPut (cacheManagerNew 0) sampleEntry 1)
        "ns" "key1" "development" 2).1 = some sampleEntry ∧
      (cacheManagerGet (cacheManagerPut (cacheManagerNew 0) sampleEntry 1)
        "ns" "key1" "development" 2).2.l1.hitCount =
        (cacheManagerPut (cacheManagerNew 0) sampleEntry 1).l1.hitCount + 1) := by
  have h₁ := zero_capacity_cache (cacheManagerNew 0) sampleEntry
    "ns" "key1" "development" 1 rfl
  have h₂ := zero_capacity_cache (cacheManagerPut (cacheManagerNew 0)
    sampleEntry 1) sampleEntry "ns" "key1" "development" 2 rfl
  exact ⟨h₁.1 (by simp [cacheManagerNew, l1New]), h₂.2 _ rfl⟩

/-- Counterexample for C10 as stated: with tier-1 capacity 0, after one put
and one get the tier-1 cache holds one entry (not zero) and the get was
served by tier 1 (one hit, no miss), so the cache is not a pass-through to
tier 2. -/
theorem zero_capacity_cache_counterexample :
    zeroCapAfterPutGet.l1.cache.length = 1 ∧
    zeroCapAfterPutGet.l1.hitCount = 1 ∧
    zeroCapAfterPutGet.l1.missCount = 0 := by
  exact ⟨rfl, rfl, rfl⟩

/-- C9: once an IP's violation counter reaches the ban threshold, the ban
record is installed at the violation instant; while a ban record is fresher
than the ban duration every `check_request` from that IP is rejected
without touching the state; requests from a different IP get the same
outcome with or without the ban record, and they leave the ban record
intact. -/
theorem rate_limit_ban (config : RateLimitConfig) (st : RateLimiterState)
    (ip : String) (now : Nat) (l : IpLimiterState) (reason : String)
    (hl : assocFind ip st.perIpLimiters = some l)
    (hthr : config.banThreshold ≤ l.violations + 1) :
    assocFind ip (recordViolation config st now ip reason).bannedIps =
      some { bannedAt := now, reason := reason,
             violations := l.violations + 1 } ∧
    (∀ (st' : RateLimiterState) (bi : BanInfo) (now' : Nat) (auth g i : Bool),
      assocFind ip st'.bannedIps = some bi →
      now' - bi.bannedAt < config.banDurationSeconds →
      checkRequest config st' now' ip auth g i =
        (.error (.rateLimitExceeded "IP address is temporarily banned"),
         st')) ∧
    (∀ (st' : RateLimiterState) (bi : BanInfo) (ip₂ : String) (now' : Nat)
        (auth g i : Bool), ip₂ ≠ ip →
      (checkRequest config
          { st' with bannedIps := assocInsert ip bi st'.bannedIps }
          now' ip₂ auth g i).1 =
        (checkRequest config st' now' ip₂ auth g i).1) ∧
    (∀ (st' : RateLimiterState) (bi : BanInfo) (ip₂ : String) (now' : Nat)
        (auth g i : Bool), ip₂ ≠ ip →
      assocFind ip st'.bannedIps = some bi →
      assocFind ip (checkRequest config st' now' ip₂ auth g i).2.bannedIps =
        some bi) := by
  refine ⟨?_, ?_, ?_, ?_⟩
  · simp [recordViolation, hl, banIp, hthr, assocFind_insert_self]
  · intro st' bi now' auth g i hfound htime
    have hban : isBanned config st' now' ip = true := by
      simp [isBanned, hfound, htime]
    simp [checkRequest, hban]
  · intro st' bi ip₂ now' auth g i hne
    have hiso : isBanned config
        { st' with bannedIps := assocInsert ip bi st'.bannedIps } now' ip₂ =
        isBanned config st' now' ip₂ := by
      simp [isBanned, assocFind_insert_ne ip ip₂ _ _ (Ne.symm hne)]
    by_cases hb : isBanned config st' now' ip₂ = true
    · simp [checkRequest, hiso, hb]
    · simp only [Bool.not_eq_true] at hb
      cases g <;> cases i <;> simp [checkRequest, hiso, hb]
  · intro st' bi ip₂ now' auth g i hne hfound
    have hrv : ∀ (stx : RateLimiterState) (r : String),
        assocFind ip (recordViolation config stx now' ip₂ r).bannedIps =
          assocFind ip stx.bannedIps := by
      intro stx r
      unfold recordViolation
      cases hf : assocFind ip₂ stx.perIpLimiters with
      | none => rfl
      | some l₂ =>
          by_cases hth : config.banThreshold ≤ l₂.violations + 1 <;>
            simp [banIp, hth, assocFind_insert_ne ip₂ ip _ _ hne]
    by_cases hb : isBanned config st' now' ip₂ = true
    · simp [checkRequest, hb, hfound]
    · simp only [Bool.not_eq_true] at hb
      cases hf₂ : assocFind ip₂ st'.perIpLimiters with
      | none =>
          cases g <;> cases i <;>
            simp [checkRequest, hb, hf₂, hrv, hfound,
              assocFind_insert_ne ip₂ ip _ _ hne]
      | some l₂ =>
          cases g <;> cases i <;>
            simp [checkRequest, hb, hf₂, hrv, hfound]

/-- Witness for `rate_limit_ban`: threshold 1, one tracked IP, one
violation at instant 5, then a rejected request at instant 6, an unaffected
second IP, and the preserved ban record. -/
theorem rate_limit_ban_witness :
    assocFind "1.2.3.4" rlBanned.bannedIps =
      some { bannedAt := 5, reason := "r", violations := 1 } ∧
    checkRequest rlConfig rlBanned 6 "1.2.3.4" false true true =
      (.error (.rateLimitExceeded "IP address is temporarily banned"),
       rlBanned) ∧
    (checkRequest rlConfig
        { rlStart with
            bannedIps := assocInsert "1.2.3.4"
              { bannedAt := 5, reason := "r", violations := 1 }
              rlStart.bannedIps }
        6 "5.6.7.8" false true true).1 =
      (checkRequest rlConfig rlStart 6 "5.6.7.8" false true true).1 ∧
    assocFind "1.2.3.4"
        (checkRequest rlConfig rlBanned 6 "5.6.7.8" false true true).2.bannedIps =
      some { bannedAt := 5, reason := "r", violations := 1 } := by
  have h := rate_limit_ban rlConfig rlStart "1.2.3.4" 5
    { violations := 0, lastViolation := 0 } "r" rfl (by decide)
  refine ⟨h.1, ?_, ?_, ?_⟩
  · exact h.2.1 rlBanned { bannedAt := 5, reason := "r", violations := 1 } 6
      false true true h.1 (by decide)
  · exact h.2.2.1 rlStart { bannedAt := 5, reason := "r", violations := 1 }
      "5.6.7.8" 6 false true true (by decide)
  · exact h.2.2.2 rlBanned { bannedAt := 5, reason := "r", violations := 1 }
      "5.6.7.8" 6 false true true (by decide) h.1

/-- C8 (amended): `validate` returns an error exactly when the length bound
or one of the SQL-injection, XSS, path-traversal or command-injection
detectors fires — the LDAP detector exists but is never consulted — and
otherwise returns the input sanitized by trim, null-byte and control
character removal and HTML escaping. -/
theorem validate_spec (config : SanitizationConfig) (input : List Char) :
    ((byteLen input > config.maxLength ∨ detectSqlInjection input = true ∨
        detectXss config input = true ∨ detectPathTraversal input = true ∨
        detectCommandInjection input = true) →
      (validate config input).isOk = false) ∧
    (¬ (byteLen input > config.maxLength ∨ detectSqlInjection input = true ∨
        detectXss config input = true ∨ detectPathTraversal input = true ∨
        detectCommandInjection input = true) →
      validate config input = .ok (sanitize config input)) := by
  by_cases h₁ : byteLen input > config.maxLength <;>
  by_cases h₂ : detectSqlInjection input = true <;>
  by_cases h₃ : detectXss config input = true <;>
  by_cases h₄ : detectPathTraversal input = true <;>
  by_cases h₅ : detectCommandInjection input = true <;>
    simp [validate, h₁, h₂, h₃, h₄, h₅, Except.isOk, Except.toBool]

/-- Witness for `validate_spec`: the harmless input `a` passes through as
its sanitization, while a single quote fires the SQL detector and is
rejected. -/
theorem validate_spec_witness :
    validate SanitizationConfig.default ['a'] =
      .ok (sanitize SanitizationConfig.default ['a']) ∧
    (validate SanitizationConfig.default ['\'']).isOk = false := by
  refine ⟨(validate_spec SanitizationConfig.default ['a']).2 (by decide),
    (validate_spec SanitizationConfig.default ['\'']).1 (by decide)⟩

/-- Counterexample for C8 as stated: the input `(` matches the LDAP
injection detector, yet `validate` accepts it unchanged — `validate` never
invokes `detect_ldap_injection`. -/
theorem ldap_not_checked_counterexample :
    detectLdapInjection ['('] = true ∧
    validate SanitizationConfig.default ['('] = .ok ['('] := by
  exact ⟨rfl, rfl⟩

theorem colon_split_unique (a : List Char) :
    ∀ (a' b b' : List Char), ':' ∉ a → ':' ∉ a' →
    a ++ ':' :: ':' :: b = a' ++ ':' :: ':' :: b' → a = a' ∧ b = b' := by
  induction a with
  | nil =>
      intro a' b b' _ ha' heq
      cases a' with
      | nil => simpa using heq
      | cons c t =>
          simp only [List.nil_append, List.cons_append, List.cons.injEq] at heq
          exact absurd (heq.1 ▸ List.mem_cons_self c t) ha'
  | cons c t ih =>
      intro a' b b' ha ha' heq
      cases a' with
      | nil =>
          simp only [List.nil_append, List.cons_append, List.cons.injEq] at heq
          exact absurd (heq.1.symm ▸ List.mem_cons_self c t) ha
      | cons c' t' =>
          simp only [List.cons_append, List.cons.injEq] at heq
          have ht := ih t' b b' (fun hm => ha (List.mem_cons_of_mem c hm))
            (fun hm => ha' (List.mem_cons_of_mem c' hm)) heq.2
          exact ⟨by rw [heq.1, ht.1], ht.2⟩

theorem makeKey_data (nspace key : String) (env : Environment) :
    (makeKey nspace key env).data =
      nspace.data ++ ':' :: ':' ::
        (key.data ++ ':' :: ':' :: (envToString env).data) := by
  simp [makeKey, String.data_append]

theorem envToString_colonFree (env : Environment) :
    ':' ∉ (envToString env).data := by
  cases env <;> decide

theorem envToString_inj (env env' : Environment)
    (h : envToString env = envToString env') : env = env' := by
  cases env <;> cases env' <;> first | rfl | (exact absurd h (by decide))

theorem colonFree_iff (s : String) : colonFree s = true ↔ ':' ∉ s.data := by
  simp [colonFree, List.all_eq_true]
  constructor
  · intro h hm
    exact h ':' hm rfl
  · intro h c hm heq
    exact h (heq ▸ hm)

theorem makeKey_inj (nspace key : String) (env : Environment)
    (nspace' key' : String) (env' : Environment)
    (hns : ':' ∉ nspace.data) (hkey : ':' ∉ key.data)
    (heq : makeKey nspace' key' env' = makeKey nspace key env) :
    nspace' = nspace ∧ key' = key ∧ env' = env := by
  have hdata := congrArg String.data heq
  rw [makeKey_data, makeKey_data] at hdata
  have hcount := congrArg (List.count ':') hdata
  simp only [List.count_append, List.count_cons_self, List.count_cons] at hcount
  have hzns : List.count ':' nspace.data = 0 := List.count_eq_zero.mpr hns
  have hzkey : List.count ':' key.data = 0 := List.count_eq_zero.mpr hkey
  have hzenv : List.count ':' (envToString env).data = 0 :=
    List.count_eq_zero.mpr (envToString_colonFree env)
  have hzenv' : List.count ':' (envToString env').data = 0 :=
    List.count_eq_zero.mpr (envToString_colonFree env')
  have hns' : ':' ∉ nspace'.data := by
    apply List.count_eq_zero.mp
    omega
  have hkey' : ':' ∉ key'.data := by
    apply List.count_eq_zero.mp
    omega
  obtain ⟨h₁, h₂⟩ := colon_split_unique nspace'.data nspace.data _ _ hns' hns hdata
  obtain ⟨h₃, h₄⟩ := colon_split_unique key'.data key.data _ _ hkey' hkey h₂
  refine ⟨String.ext h₁, String.ext h₃, ?_⟩
  exact envToString_inj env' env (String.ext h₄)

theorem natListMax?_append_singleton (l : List Nat) (x : Nat) :
    natListMax? (l ++ [x]) =
      some (match natListMax? l with
            | none => x
            | some m => max m x) := by
  induction l with
  | nil => simp [natListMax?]
  | cons y ys ih =>
      cases hy : natListMax? ys with
      | none => simp [List.cons_append, natListMax?, ih, hy]
      | some m => simp [List.cons_append, natListMax?, ih, hy, Nat.max_assoc]

theorem mem_insertByVersionDesc {v w : VersionEntry} {l : List VersionEntry} :
    v ∈ insertByVersionDesc w l ↔ v = w ∨ v ∈ l := by
  induction l with
  | nil => simp [insertByVersionDesc]
  | cons u us ih =>
      by_cases h : u.version < w.version
      · simp [insertByVersionDesc, h]
      · simp [insertByVersionDesc, h, ih]
        tauto

theorem mem_sortByVersionDesc {v : VersionEntry} {l : List VersionEntry} :
    v ∈ sortByVersionDesc l ↔ v ∈ l := by
  induction l with
  | nil => simp [sortByVersionDesc]
  | cons u us ih => simp [sortByVersionDesc, mem_insertByVersionDesc, ih]

theorem insertByVersionDesc_head (v : VersionEntry) (l : List VersionEntry) :
    (insertByVersionDesc v l).head? =
      some (match l.head? with
            | none => v
            | some w => if w.version < v.version then v else w) := by
  cases l with
  | nil => rfl
  | cons w ws =>
      by_cases h : w.version < v.version <;> simp [insertByVersionDesc, h]

theorem sort_head_version (l : List VersionEntry) :
    (sortByVersionDesc l).head?.map (·.version) =
      natListMax? (l.map (·.version)) := by
  induction l with
  | nil => rfl
  | cons v vs ih =>
      rw [sortByVersionDesc, insertByVersionDesc_head]
      cases hs : (sortByVersionDesc vs).head? with
      | none =>
          rw [hs] at ih
          simp only [List.map_cons, natListMax?, ← ih]
          simp
      | some w =>
          rw [hs] at ih
          simp only [List.map_cons, natListMax?, ← ih, Option.map_some']
          by_cases h : w.version < v.version
          · simp [h, Nat.max_eq_left (Nat.le_of_lt h)]
          · simp [h, Nat.max_eq_right (Nat.le_of_not_lt h)]

theorem natListMax?_insertByVersionDesc (v : VersionEntry)
    (l : List VersionEntry) :
    natListMax? ((insertByVersionDesc v l).map (·.version)) =
      natListMax? ((v :: l).map (·.version)) := by
  induction l with
  | nil => rfl
  | cons w ws ih =>
      by_cases h : w.version < v.version
      · simp [insertByVersionDesc, h]
      · simp only [insertByVersionDesc, h, if_neg, List.map_cons, natListMax?,
          ih]
        cases hw : natListMax? (ws.map (·.version)) with
        | none => simp [Nat.max_comm]
        | some m =>
            simp only [Option.some.injEq]
            omega

theorem natListMax?_sort (l : List VersionEntry) :
    natListMax? ((sortByVersionDesc l).map (·.version)) =
      natListMax? (l.map (·.version)) := by
  induction l with
  | nil => rfl
  | cons v vs ih =>
      rw [sortByVersionDesc, natListMax?_insertByVersionDesc]
      simp only [List.map_cons, natListMax?, ih]

theorem decryptEntry_preserves_version (prim : AeadPrimitive) (k : SecretKey)
    (e e' : ConfigEntry) (h : decryptEntry prim k e = .ok e') :
    e'.version = e.version := by
  unfold decryptEntry at h
  cases hval : e.value
  case secret ed =>
      rw [hval] at h
      dsimp only at h
      cases hd : decrypt prim k ed with
      | error err => rw [hd] at h; exact absurd h (by simp)
      | ok pt =>
          rw [hd] at h
          dsimp only at h
          cases hu : utf8Decode? pt with
          | none => rw [hu] at h; exact absurd h (by simp)
          | some s =>
              rw [hu] at h
              simp only [Except.ok.injEq] at h
              rw [← h]
  all_goals
    rw [hval] at h
    simp only [Except.ok.injEq] at h
    rw [← h]

theorem managerInv_write (stor : Storage) (e : ConfigEntry)
    (desc : Option String) (now : Nat) (hinv : managerInv stor)
    (hver : colonFree e.nspace = true → colonFree e.key = true →
      match natListMax? ((stor.versions.filter
          (versionMatches e.nspace e.key e.environment)).map (·.version)) with
      | some m => e.version = m + 1
      | none => e.version = 1) :
    managerInv (createSnapshot (storageSet stor e) e desc now) := by
  obtain ⟨hslot, htriple⟩ := hinv
  have hconfigs : (createSnapshot (storageSet stor e) e desc now).configs =
      assocInsert (makeKey e.nspace e.key e.environment) e stor.configs := rfl
  have hversions : (createSnapshot (storageSet stor e) e desc now).versions =
      stor.versions ++
        [{ version := e.version, configId := e.id, nspace := e.nspace,
           key := e.key, value := e.value, environment := e.environment,
           createdAt := now, createdBy := e.metadata.updatedBy,
           changeDescription := desc }] := rfl
  constructor
  · intro k e' hfind
    rw [hconfigs] at hfind
    by_cases hk : makeKey e.nspace e.key e.environment = k
    · subst hk
      rw [assocFind_insert_self] at hfind
      cases hfind
      rfl
    · rw [assocFind_insert_ne _ _ _ _ hk] at hfind
      exact hslot k e' hfind
  · intro ns key env hcns hckey
    have hns := (colonFree_iff ns).mp hcns
    have hkey := (colonFree_iff key).mp hckey
    unfold tripleInv
    by_cases hk : makeKey e.nspace e.key e.environment = makeKey ns key env
    · obtain ⟨h₁, h₂, h₃⟩ :=
        makeKey_inj ns key env e.nspace e.key e.environment hns hkey hk
      have hget : storageGet (createSnapshot (storageSet stor e) e desc now)
          ns key env = some e := by
        unfold storageGet
        rw [hconfigs, ← hk, assocFind_insert_self]
      rw [hget]
      dsimp only
      have hmatch : versionMatches ns key env
          { version := e.version, configId := e.id, nspace := e.nspace,
            key := e.key, value := e.value, environment := e.environment,
            createdAt := now, createdBy := e.metadata.updatedBy,
            changeDescription := desc } = true := by
        simp [versionMatches, h₁, h₂, h₃]
      rw [hversions, List.filter_append]
      rw [show List.filter (versionMatches ns key env)
          [{ version := e.version, configId := e.id, nspace := e.nspace,
             key := e.key, value := e.value, environment := e.environment,
             createdAt := now, createdBy := e.metadata.updatedBy,
             changeDescription := desc }] =
          [{ version := e.version, configId := e.id, nspace := e.nspace,
             key := e.key, value := e.value, environment := e.environment,
             createdAt := now, createdBy := e.metadata.updatedBy,
             changeDescription := desc }] from by simp [hmatch]]
      rw [List.map_append]
      simp only [List.map_cons, List.map_nil]
      rw [natListMax?_append_singleton]
      have hv := hver (by rw [h₁]; exact hcns) (by rw [h₂]; exact hckey)
      rw [h₁, h₂, h₃] at hv
      cases hm : natListMax? ((stor.versions.filter
          (versionMatches ns key env)).map (·.version)) with
      | none => rfl
      | some m =>
          rw [hm] at hv
          dsimp only at hv ⊢
          simp only [Option.some.injEq]
          rw [hv]
          exact Nat.max_eq_right (Nat.le_succ m)
    · have hget : storageGet (createSnapshot (storageSet stor e) e desc now)
          ns key env = storageGet stor ns key env := by
        unfold storageGet
        rw [hconfigs, assocFind_insert_ne _ _ _ _ hk]
      have hmatch : versionMatches ns key env
          { version := e.version, configId := e.id, nspace := e.nspace,
            key := e.key, value := e.value, environment := e.environment,
            createdAt := now, createdBy := e.metadata.updatedBy,
            changeDescription := desc } = false := by
        by_contra hcon
        simp only [Bool.not_eq_false] at hcon
        simp only [versionMatches, decide_eq_true_eq] at hcon
        obtain ⟨ha, hb, hc⟩ := hcon
        exact hk (by rw [ha, hb, hc])
      rw [hversions, List.filter_append]
      rw [show List.filter (versionMatches ns key env)
          [{ version := e.version, configId := e.id, nspace := e.nspace,
             key := e.key, value := e.value, environment := e.environment,
             createdAt := now, createdBy := e.metadata.updatedBy,
             changeDescription := desc }] = [] from by simp [hmatch]]
      rw [List.append_nil, hget]
      have ht := htriple ns key env hcns hckey
      unfold tripleInv at ht
      exact ht

theorem managerInv_set (st : ManagerState) (ns₀ key₀ : String)
    (v : ConfigValue) (env₀ : Environment) (user : String) (now : Nat)
    (hinv : managerInv st.storage) :
    managerInv (managerSet st ns₀ key₀ v env₀ user now).2.storage := by
  cases hex : storageGet st.storage ns₀ key₀ env₀ with
  | some ex =>
      have hred : (managerSet st ns₀ key₀ v env₀ user now).2.storage =
          createSnapshot
            (storageSet st.storage
              { ex with
                  value := v
                  version := ex.version + 1
                  metadata := { ex.metadata with
                                  updatedAt := now
                                  updatedBy := user } })
            { ex with
                value := v
                version := ex.version + 1
                metadata := { ex.metadata with
                                updatedAt := now
                                updatedBy := user } }
            (some "Configuration updated") now := by
        simp only [managerSet, hex]
      rw [hred]
      apply managerInv_write _ _ _ _ hinv
      intro hcns hckey
      have hget2 : storageGet st.storage ex.nspace ex.key ex.environment =
          some ex := by
        have hmk := hinv.1 (makeKey ns₀ key₀ env₀) ex hex
        unfold storageGet
        rw [hmk]
        exact hex
      have ht := hinv.2 ex.nspace ex.key ex.environment hcns hckey
      unfold tripleInv at ht
      rw [hget2] at ht
      dsimp only
      rw [ht]
  | none =>
      have hred : (managerSet st ns₀ key₀ v env₀ user now).2.storage =
          createSnapshot
            (storageSet st.storage
              { ConfigEntry.new st.nextId ns₀ key₀ v env₀ now with
                  metadata :=
                    { (ConfigEntry.new st.nextId ns₀ key₀ v env₀ now).metadata with
                        createdBy := user
                        updatedBy := user } })
            { ConfigEntry.new st.nextId ns₀ key₀ v env₀ now with
                metadata :=
                  { (ConfigEntry.new st.nextId ns₀ key₀ v env₀ now).metadata with
                      createdBy := user
                      updatedBy := user } }
            (some "Configuration updated") now := by
        simp only [managerSet, hex]
      rw [hred]
      apply managerInv_write _ _ _ _ hinv
      intro hcns hckey
      have ht := hinv.2 ns₀ key₀ env₀ (by simpa [ConfigEntry.new] using hcns)
        (by simpa [ConfigEntry.new] using hckey)
      unfold tripleInv at ht
      rw [hex] at ht
      dsimp only at ht
      dsimp only [ConfigEntry.new]
      rw [ht]
      rfl

theorem managerInv_rollback (st : ManagerState) (ns₀ key₀ : String)
    (env₀ : Environment) (targetVersion now : Nat)
    (hinv : managerInv st.storage) :
    managerInv (managerRollback st ns₀ key₀ env₀ targetVersion now).2.storage := by
  cases hfind : (getVersions st.storage ns₀ key₀ env₀).find?
      (fun v => v.version = targetVersion) with
  | none =>
      have hsame : (managerRollback st ns₀ key₀ env₀ targetVersion now).2 = st := by
        simp [managerRollback, hfind]
      rw [hsame]
      exact hinv
  | some version =>
      have hred : (managerRollback st ns₀ key₀ env₀ targetVersion now).2.storage =
          createSnapshot
            (storageSet st.storage
              { ConfigEntry.new st.nextId version.nspace version.key
                  version.value version.environment now with
                  version :=
                    match (getVersions st.storage ns₀ key₀ env₀).head? with
                    | some v => v.version + 1
                    | none => 1
                  metadata :=
                    { (ConfigEntry.new st.nextId version.nspace version.key
                        version.value version.environment now).metadata with
                        updatedAt := now } })
            { ConfigEntry.new st.nextId version.nspace version.key
                version.value version.environment now with
                version :=
                  match (getVersions st.storage ns₀ key₀ env₀).head? with
                  | some v => v.version + 1
                  | none => 1
                metadata :=
                  { (ConfigEntry.new st.nextId version.nspace version.key
                      version.value version.environment now).metadata with
                      updatedAt := now } }
            (some ("Rollback to version " ++ toString targetVersion)) now := by
        simp only [managerRollback, hfind]
      rw [hred]
      apply managerInv_write _ _ _ _ hinv
      intro hcns hckey
      have hmem : version ∈ getVersions st.storage ns₀ key₀ env₀ :=
        List.mem_of_find?_eq_some hfind
      have hmem₂ : version ∈
          st.storage.versions.filter (versionMatches ns₀ key₀ env₀) := by
        unfold getVersions at hmem
        exact mem_sortByVersionDesc.mp hmem
      have hvm : versionMatches ns₀ key₀ env₀ version = true :=
        List.of_mem_filter hmem₂
      have htriple : version.nspace = ns₀ ∧ version.key = key₀ ∧
          version.environment = env₀ := by
        simpa [versionMatches, decide_eq_true_eq] using hvm
      obtain ⟨ha, hb, hc⟩ := htriple
      cases hh : (getVersions st.storage ns₀ key₀ env₀).head? with
      | none =>
          rw [List.head?_eq_none_iff] at hh
          rw [hh] at hmem
          exact absurd hmem (List.not_mem_nil version)
      | some hd =>
          have hmax : natListMax? ((st.storage.versions.filter
              (versionMatches ns₀ key₀ env₀)).map (·.version)) =
              some hd.version := by
            have hs := sort_head_version
              (st.storage.versions.filter (versionMatches ns₀ key₀ env₀))
            have hgv : sortByVersionDesc (st.storage.versions.filter
                (versionMatches ns₀ key₀ env₀)) =
                getVersions st.storage ns₀ key₀ env₀ := rfl
            rw [hgv, hh] at hs
            simpa using hs.symm
          dsimp only [ConfigEntry.new]
          rw [ha, hb, hc, hmax]

theorem managerInv_reaches (st : ManagerState) (h : Reaches st) :
    managerInv st.storage := by
  induction h with
  | init nid ek =>
      constructor
      · intro k e hf
        simp [Storage.empty, assocFind] at hf
      · intro ns key env _ _
        unfold tripleInv
        simp [storageGet, Storage.empty, assocFind]
  | set st ns₀ key₀ v env₀ user now _ ih =>
      exact managerInv_set st ns₀ key₀ v env₀ user now ih
  | rollback st ns₀ key₀ env₀ targetVersion now _ ih =>
      exact managerInv_rollback st ns₀ key₀ env₀ targetVersion now ih

/-- C1 (amended): from empty storage, under any sequence of `set` and
`rollback` operations on arbitrary triples, every triple whose namespace
and key are colon-free satisfies the invariant: when `get` returns an
entry, the triple's history is nonempty and the entry's version is the
largest version among the records returned by `get_history`. The
restriction to colon-free names is forced: index keys `ns::key::env`
collide for other triples (see the counterexample). -/
theorem version_matches_history (prim : AeadPrimitive) (st : ManagerState)
    (nspace key : String) (env : Environment) (e : ConfigEntry)
    (hreach : Reaches st)
    (hcns : colonFree nspace = true) (hckey : colonFree key = true)
    (hget : managerGet prim st nspace key env = .ok (some e)) :
    managerGetHistory st nspace key env ≠ [] ∧
    natListMax? ((managerGetHistory st nspace key env).map (·.version)) =
      some e.version := by
  obtain ⟨hslot, htriple⟩ := managerInv_reaches st hreach
  cases hg : storageGet st.storage nspace key env with
  | none => simp [managerGet, hg] at hget
  | some e₀ =>
      have hver : e.version = e₀.version := by
        unfold managerGet at hget
        rw [hg] at hget
        dsimp only at hget
        cases hk : st.encryptionKey with
        | none =>
            rw [hk] at hget
            dsimp only at hget
            simp only [Except.ok.injEq, Option.some.injEq] at hget
            rw [← hget]
        | some k =>
            rw [hk] at hget
            dsimp only at hget
            cases hde : decryptEntry prim k e₀ with
            | error err => rw [hde] at hget; simp [Except.map] at hget
            | ok e₁ =>
                rw [hde] at hget
                simp only [Except.map, Except.ok.injEq, Option.some.injEq]
                  at hget
                rw [← hget]
                exact decryptEntry_preserves_version prim k e₀ e₁ hde
      have ht := htriple nspace key env hcns hckey
      unfold tripleInv at ht
      rw [hg] at ht
      have hmax : natListMax? ((managerGetHistory st nspace key env).map
          (·.version)) = some e.version := by
        unfold managerGetHistory getVersions
        rw [natListMax?_sort, ht, hver]
      refine ⟨?_, hmax⟩
      intro hnil
      rw [hnil] at hmax
      simp [natListMax?] at hmax

/-- Witness for `version_matches_history`: after one `set` on the clean
triple `("n", "k", development)`, `get` returns the created entry, the
history is nonempty and its largest version is 1. -/
theorem version_matches_history_witness :
    managerGetHistory oneSetState "n" "k" Environment.development ≠ [] ∧
    natListMax? ((managerGetHistory oneSetState "n" "k"
        Environment.development).map (·.version)) =
      some (managerSet ManagerState.empty "n" "k" (ConfigValue.string "a")
        Environment.development "u" 0).1.version := by
  have hreach : Reaches oneSetState :=
    Reaches.set ManagerState.empty "n" "k" (ConfigValue.string "a")
      Environment.development "u" 0 (Reaches.init 0 none)
  exact version_matches_history toyAead oneSetState "n" "k"
    Environment.development
    (managerSet ManagerState.empty "n" "k" (ConfigValue.string "a")
      Environment.development "u" 0).1
    hreach (by decide) (by decide) rfl

/-- Counterexample for C1 as stated: the triples `("a::b", "c")` and
`("a", "b::c")` share the storage index key, so after one `set` on the
first, `get` on the second returns that entry while its `get_history` is
empty — there is no largest history version for `get` to agree with. -/
theorem version_matches_history_counterexample :
    managerGet toyAead collidingState "a" "b::c" Environment.development =
      .ok (some (managerSet ManagerState.empty "a::b" "c"
        (ConfigValue.string "x") Environment.development "u" 0).1) ∧
    managerGetHistory collidingState "a" "b::c" Environment.development =
      [] := by
  exact ⟨rfl, rfl⟩

theorem charToDigit?_digitToChar (d : Nat) (h : d < 10) :
    charToDigit? (digitToChar d) = some d := by
  interval_cases d <;> decide

theorem natDigitsRev_lt (n : Nat) : ∀ d ∈ natDigitsRev n, d < 10 := by
  induction n using Nat.strong_induction_on with
  | _ n ih =>
      intro d hd
      by_cases h : n = 0
      · subst h
        rw [natDigitsRev] at hd
        simp at hd
      · rw [natDigitsRev] at hd
        simp only [h, dif_neg, not_false_iff, List.mem_cons] at hd
        rcases hd with hd | hd
        · subst hd
          exact Nat.mod_lt n (by omega)
        · exact ih (n / 10) (Nat.div_lt_self (Nat.pos_of_ne_zero h) (by omega))
            d hd

theorem natDigitsRev_val (n : Nat) :
    (natDigitsRev n).foldr (fun d acc => acc * 10 + d) 0 = n := by
  induction n using Nat.strong_induction_on with
  | _ n ih =>
      by_cases h : n = 0
      · subst h
        rw [natDigitsRev]
        simp
      · rw [natDigitsRev]
        simp only [h, dif_neg, not_false_iff, List.foldr_cons]
        rw [ih (n / 10) (Nat.div_lt_self (Nat.pos_of_ne_zero h) (by omega))]
        omega

theorem natDigitsRev_ne_nil (n : Nat) (h : n ≠ 0) : natDigitsRev n ≠ [] := by
  rw [natDigitsRev]
  simp [h]

theorem parseNatAux_digits (ds : List Nat) :
    ∀ (acc : Nat), (∀ d ∈ ds, d < 10) →
    parseNatAux acc (ds.map digitToChar) =
      some (ds.foldl (fun a d => a * 10 + d) acc) := by
  induction ds with
  | nil => intro acc _; rfl
  | cons d rest ih =>
      intro acc h
      simp only [List.map_cons, parseNatAux, List.foldl_cons]
      rw [charToDigit?_digitToChar d (h d (List.mem_cons_self d rest))]
      exact ih (acc * 10 + d) (fun x hx => h x (List.mem_cons_of_mem d hx))

theorem parseNat?_mk (l : List Char) (h : l ≠ []) :
    parseNat? ⟨l⟩ = parseNatAux 0 l := by
  cases l with
  | nil => exact absurd rfl h
  | cons c cs => rfl

theorem parseNat?_natToString (n : Nat) : parseNat? (natToString n) = some n := by
  by_cases h : n = 0
  · subst h
    rfl
  · unfold natToString
    rw [if_neg h]
    have hne : ((natDigitsRev n).map digitToChar).reverse ≠ [] := by
      intro h0
      rw [List.reverse_eq_nil_iff, List.map_eq_nil_iff] at h0
      exact natDigitsRev_ne_nil n h h0
    rw [parseNat?_mk _ hne]
    have hrev : ((natDigitsRev n).map digitToChar).reverse =
        ((natDigitsRev n).reverse).map digitToChar :=
      (List.map_reverse digitToChar (natDigitsRev n)).symm
    rw [hrev]
    rw [parseNatAux_digits ((natDigitsRev n).reverse) 0
      (fun d hd => natDigitsRev_lt n d (List.mem_reverse.mp hd))]
    rw [List.foldl_reverse]
    rw [natDigitsRev_val n]

theorem hexDigitVal?_hexDigitChar (d : Nat) (h : d < 16) :
    hexDigitVal? (hexDigitChar d) = some d := by
  interval_cases d <;> decide

theorem hexToBytes?_bytesToHex (bs : List Byte) :
    hexToBytes? (bytesToHex bs).data = some bs := by
  have hdata : (bytesToHex bs).data = bs.flatMap byteToHex := rfl
  rw [hdata]
  clear hdata
  induction bs with
  | nil => rfl
  | cons b rest ih =>
      have hflat : (b :: rest).flatMap byteToHex =
          hexDigitChar (b.val / 16) :: hexDigitChar (b.val % 16) ::
            rest.flatMap byteToHex := by
        simp [List.flatMap_cons, byteToHex]
      rw [hflat]
      rw [hexToBytes?]
      rw [hexDigitVal?_hexDigitChar (b.val / 16)
          (Nat.div_lt_of_lt_mul (by omega)),
        hexDigitVal?_hexDigitChar (b.val % 16) (Nat.mod_lt _ (by omega))]
      dsimp only
      rw [ih]
      have hb : (b.val / 16 * 16 + b.val % 16) % 256 = b.val := by omega
      simp only [Option.map_some', Option.some.injEq, List.cons.injEq]
      exact ⟨Fin.ext hb, trivial⟩

theorem envFromJson?_envToString (env : Environment) :
    envFromJson? (.str (envToString env)) = some env := by
  cases env <;> rfl

theorem strListFromJson?_map (l : List String) :
    strListFromJson? (l.map Json.str) = some l := by
  induction l with
  | nil => rfl
  | cons s rest ih => simp [strListFromJson?, ih]

mutual

theorem configValue_roundtrip : ∀ (v : ConfigValue), valueJsonSafe v = true →
    configValueFromJson? (configValueJson v) = some v
  | .string _, _ => rfl
  | .integer _, _ => rfl
  | .float bits, h => by
      have hf : isFiniteF64 bits = true := by simpa [valueJsonSafe] using h
      simp [configValueJson, hf, configValueFromJson?]
  | .boolean _, _ => rfl
  | .array xs, h => by
      have hl : valueJsonSafeList xs = true := by
        simpa [valueJsonSafe] using h
      simp only [configValueJson, configValueFromJson?]
      rw [configValueList_roundtrip xs hl]
      rfl
  | .object fields, h => by
      have hf : valueJsonSafeFields fields = true := by
        simpa [valueJsonSafe] using h
      simp only [configValueJson, configValueFromJson?]
      rw [configValueFields_roundtrip fields hf]
  | .secret _, h => by simp [valueJsonSafe] at h

theorem configValueList_roundtrip : ∀ (xs : List ConfigValue),
    valueJsonSafeList xs = true →
    configValueFromJsonList (configValueJsonList xs) = some xs
  | [], _ => rfl
  | v :: rest, h => by
      have h₁ : valueJsonSafe v = true ∧ valueJsonSafeList rest = true := by
        simpa [valueJsonSafeList, Bool.and_eq_true] using h
      simp only [configValueJsonList, configValueFromJsonList]
      rw [configValue_roundtrip v h₁.1]
      dsimp only
      rw [configValueList_roundtrip rest h₁.2]
      rfl

theorem configValueFields_roundtrip : ∀ (fs : List (String × ConfigValue)),
    valueJsonSafeFields fs = true →
    configValueFromJsonFields (configValueJsonFields fs) = some fs
  | [], _ => rfl
  | (k, v) :: rest, h => by
      have h₁ : valueJsonSafe v = true ∧ valueJsonSafeFields rest = true := by
        simpa [valueJsonSafeFields, Bool.and_eq_true] using h
      simp only [configValueJsonFields, configValueFromJsonFields]
      rw [configValue_roundtrip v h₁.1]
      dsimp only
      rw [configValueFields_roundtrip rest h₁.2]
      rfl

end

theorem encryptedData_roundtrip (ed : EncryptedData) :
    encryptedDataFromJson? (encryptedDataJson ed) = some ed := by
  obtain ⟨alg, nonce, ciphertext, keyVersion, aadContext⟩ := ed
  cases alg
  cases aadContext with
  | none =>
      simp [encryptedDataJson, encryptedDataFromJson?, algorithmJson,
        algorithmFromJson?, assocFind, hexToBytes?_bytesToHex]
  | some ctx =>
      simp [encryptedDataJson, encryptedDataFromJson?, algorithmJson,
        algorithmFromJson?, assocFind, hexToBytes?_bytesToHex]

theorem metadata_roundtrip (m : ConfigMetadata) :
    metadataFromJson? (metadataJson m) = some m := by
  obtain ⟨createdAt, createdBy, updatedAt, updatedBy, tags, description⟩ := m
  cases description with
  | none =>
      simp [metadataJson, metadataFromJson?, assocFind, parseNat?_natToString,
        strListFromJson?_map]
  | some d =>
      simp [metadataJson, metadataFromJson?, assocFind, parseNat?_natToString,
        strListFromJson?_map]

theorem configEntry_roundtrip (e : ConfigEntry)
    (h : valueJsonSafe e.value = true) :
    configEntryFromJson? (configEntryJson e) = some e := by
  obtain ⟨id, nspace, key, value, environment, version, metadata⟩ := e
  simp only [valueJsonSafe] at h
  simp [configEntryJson, configEntryFromJson?, assocFind,
    parseNat?_natToString, configValue_roundtrip value h,
    envFromJson?_envToString, metadata_roundtrip]

theorem versionEntry_roundtrip (v : VersionEntry)
    (h : valueJsonSafe v.value = true) :
    versionEntryFromJson? (versionEntryJson v) = some v := by
  obtain ⟨version, configId, nspace, key, value, environment, createdAt,
    createdBy, changeDescription⟩ := v
  simp only [valueJsonSafe] at h
  cases changeDescription with
  | none =>
      simp [versionEntryJson, versionEntryFromJson?, assocFind,
        parseNat?_natToString, configValue_roundtrip value h,
        envFromJson?_envToString]
  | some d =>
      simp [versionEntryJson, versionEntryFromJson?, assocFind,
        parseNat?_natToString, configValue_roundtrip value h,
        envFromJson?_envToString]

/-- C7 (amended): JSON round-trip is the identity on every entry file,
version file and `ConfigValue` whose values contain no `Secret` variant and
no non-finite float. The restrictions are forced by the untagged union: a
serialized `Secret` deserializes as `Object` (see the counterexample), and
`serde_json` serializes a non-finite `f64` as `null`, which no variant we
can deserialize accepts. -/
theorem json_roundtrip (e : ConfigEntry) (v : VersionEntry)
    (val : ConfigValue) (he : valueJsonSafe e.value = true)
    (hv : valueJsonSafe v.value = true) (hval : valueJsonSafe val = true) :
    configEntryFromJson? (configEntryJson e) = some e ∧
    versionEntryFromJson? (versionEntryJson v) = some v ∧
    configValueFromJson? (configValueJson val) = some val :=
  ⟨configEntry_roundtrip e he, versionEntry_roundtrip v hv,
    configValue_roundtrip val hval⟩

/-- Witness for `json_roundtrip`: the concrete entry created by the first
`set` of `oneSetState`, its version record, and a small mixed value. -/
theorem json_roundtrip_witness :
    configEntryFromJson? (configEntryJson
      (managerSet ManagerState.empty "n" "k" (ConfigValue.string "a")
        Environment.development "u" 0).1) =
      some (managerSet ManagerState.empty "n" "k" (ConfigValue.string "a")
        Environment.development "u" 0).1 ∧
    versionEntryFromJson? (versionEntryJson
      { version := 1, configId := 0, nspace := "n", key := "k",
        value := ConfigValue.string "a", environment := .development,
        createdAt := 0, createdBy := "u", changeDescription :=
          some "Configuration updated" }) =
      some { version := 1, configId := 0, nspace := "n", key := "k",
             value := ConfigValue.string "a", environment := .development,
             createdAt := 0, createdBy := "u", changeDescription :=
               some "Configuration updated" } ∧
    configValueFromJson? (configValueJson
      (ConfigValue.array [ConfigValue.integer 3,
        ConfigValue.object [("x", ConfigValue.boolean true)]])) =
      some (ConfigValue.array [ConfigValue.integer 3,
        ConfigValue.object [("x", ConfigValue.boolean true)]]) :=
  json_roundtrip _ _ _ rfl rfl rfl

/-- Counterexample for C7 as stated: a serialized `Secret` value comes back
from JSON as the `Object` variant holding the ciphertext record's fields as
plain values — the untagged deserializer tries `Object` before `Secret` and
succeeds — so the `Secret` variant does not survive the round trip. -/
theorem json_roundtrip_counterexample :
    configValueJson (ConfigValue.secret sampleEncrypted) =
      .obj [("algorithm", .str "aes-256-gcm"), ("nonce", .str ""),
            ("ciphertext", .str ""), ("key_version", .int 1)] ∧
    configValueFromJson? (configValueJson
        (ConfigValue.secret sampleEncrypted)) =
      some (ConfigValue.object
        [("algorithm", ConfigValue.string "aes-256-gcm"),
         ("nonce", ConfigValue.string ""),
         ("ciphertext", ConfigValue.string ""),
         ("key_version", ConfigValue.integer 1)]) ∧
    (configValueFromJson? (configValueJson
        (ConfigValue.secret sampleEncrypted))).map ConfigValue.isSecret =
      some false := by
  exact ⟨rfl, rfl, rfl⟩
